import Mathlib

/-!
# Verification development for `image/image.go` (dive)

A shallow embedding of the image pre-processing code: the progress bar, the
content-ID resolution of `NewImageConfig`, the archive walk and the layer
reconciliation of `InitializeData`.

Conventions of the embedding
* Go slices are lists; a nil pointer is `none`.
* Go `int` / `int64` are `Int`, with the 64-bit range made explicit where it matters.
* A run-time panic or `os.Exit(1)` is an `Except.error` carrying a `GoAbort`.
-/

namespace Dive

/-! ## Abnormal termination -/

/-- The ways in which the Go code stops without returning a value. -/
inductive GoAbort where
  /-- Indexing a slice outside `0 ≤ i < len`. -/
  | indexOutOfRange
  /-- Slicing a string beyond its length (`name[:15]`). -/
  | sliceBounds
  /-- Reading a field through a nil pointer. -/
  | nilDereference
  /-- The call `panic(err)` after a failed read or JSON decode. -/
  | panicErr
  /-- The call `os.Exit(1)` after a failed tar read. -/
  | exit1
  /-- The panic of `strings.Repeat` on a negative count. -/
  | negativeRepeat
  /-- The fatal error `concurrent map writes` of the Go runtime. -/
  | concurrentMapWrites
deriving DecidableEq, Repr

/-! ## Data model -/

/-- The Go struct `ImageManifest`. -/
structure ImageManifest where
  ConfigPath : String
  RepoTags : List String
  LayerTarPaths : List String
deriving DecidableEq, Repr

/-- The Go struct `ImageHistoryEntry`; `Size` is a `uint64`. -/
structure ImageHistoryEntry where
  ID : String
  Size : Nat
  Created : String
  Author : String
  CreatedBy : String
  EmptyLayer : Bool
deriving DecidableEq, Repr

/-- The Go struct `RootFs` (its field `Type` is spelled `FsType` here). -/
structure RootFs where
  FsType : String
  DiffIds : List String
deriving DecidableEq, Repr

/-- The Go struct `ImageConfig`. -/
structure ImageConfig where
  History : List ImageHistoryEntry
  RootFs : RootFs
deriving DecidableEq, Repr

/-- Modelled from the spec: the file metadata `filetree.FileInfo` of the external
package `filetree`; only the path and the byte size of the tar header are kept. -/
structure FileInfo where
  Path : String
  Size : Int
deriving DecidableEq, Repr

/-- Modelled from the spec: the external `filetree.FileTree`, reduced to what
`image.go` touches: its `Name`, its aggregate `FileSize` (a `uint64`) and the
paths inserted with `AddPath`. -/
structure FileTree where
  Name : String
  FileSize : Nat
  Paths : List FileInfo
deriving DecidableEq, Repr

/-- Modelled from the spec: the struct `Layer`, declared in another file of the
package. `Tree` is a pointer (possibly nil), `RefTrees` the shared slice of
tree pointers, `TarPath` a string whose zero value `""` means absent. -/
structure Layer where
  TarPath : String
  History : ImageHistoryEntry
  Index : Int
  Tree : Option FileTree
  RefTrees : List (Option FileTree)
deriving DecidableEq, Repr

/-! ## Slice indexing -/

/-- Go slice indexing `xs[i]` with a signed index: panics outside the bounds. -/
def indexAt {α : Type} (xs : List α) (i : Int) : Except GoAbort α :=
  if i < 0 then .error .indexOutOfRange
  else
    match xs[i.toNat]? with
    | some x => .ok x
    | none => .error .indexOutOfRange

/-! ## IEEE-754 binary64 arithmetic (Go `float64`)

Line 49 computes `int(100.0*(float64(pb.rawCurrent) / float64(pb.rawTotal)))`.
The finite values of `float64` are represented by the rationals they denote and
every operation rounds its exact result to the nearest representable value,
ties to even, as IEEE-754 prescribes. The sign of zero is not tracked: the only
zero divisor that occurs is `float64(0)`, which is `+0`. -/

/-- A `float64` value. -/
inductive Float64 where
  | finite (q : ℚ)
  | posInf
  | negInf
  | nan
deriving DecidableEq

/-- Rounding of a rational to the nearest integer, ties to the even one. -/
def roundHalfEven (x : ℚ) : ℤ :=
  if x - ⌊x⌋ < 1 / 2 then ⌊x⌋
  else if 1 / 2 < x - ⌊x⌋ then ⌊x⌋ + 1
  else if ⌊x⌋ % 2 = 0 then ⌊x⌋ else ⌊x⌋ + 1

/-- The exponent of the spacing of binary64 around `q`: 53 significant bits,
and never below the spacing `2^-1074` of the subnormal numbers. -/
def ulpExp (q : ℚ) : ℤ :=
  max (Int.log 2 |q| - 52) (-1074)

/-- Rounding of a rational to the binary64 grid, exponent range unbounded above. -/
def roundToGrid (q : ℚ) : ℚ :=
  (roundHalfEven (q / (2 : ℚ) ^ ulpExp q) : ℚ) * (2 : ℚ) ^ ulpExp q

/-- The `float64` nearest to a rational: a rounded magnitude of `2^1024` or more
overflows to an infinity. -/
def Float64.ofRat (q : ℚ) : Float64 :=
  if (2 : ℚ) ^ (1024 : ℕ) ≤ roundToGrid q then .posInf
  else if roundToGrid q ≤ -(2 : ℚ) ^ (1024 : ℕ) then .negInf
  else .finite (roundToGrid q)

/-- The conversion `float64(v)` of an integer. -/
def Float64.ofInt (v : Int) : Float64 :=
  Float64.ofRat (v : ℚ)

/-- The quotient `x / y` of two `float64`. -/
def Float64.div : Float64 → Float64 → Float64
  | .nan, _ => .nan
  | _, .nan => .nan
  | .finite a, .finite b =>
    if b = 0 then (if a = 0 then .nan else if 0 < a then .posInf else .negInf)
    else Float64.ofRat (a / b)
  | .finite _, .posInf => .finite 0
  | .finite _, .negInf => .finite 0
  | .posInf, .finite b => if 0 ≤ b then .posInf else .negInf
  | .negInf, .finite b => if 0 ≤ b then .negInf else .posInf
  | .posInf, .posInf => .nan
  | .posInf, .negInf => .nan
  | .negInf, .posInf => .nan
  | .negInf, .negInf => .nan

/-- The product `x * y` of two `float64`. -/
def Float64.mul : Float64 → Float64 → Float64
  | .nan, _ => .nan
  | _, .nan => .nan
  | .finite a, .finite b => Float64.ofRat (a * b)
  | .finite a, .posInf => if a = 0 then .nan else if 0 < a then .posInf else .negInf
  | .finite a, .negInf => if a = 0 then .nan else if 0 < a then .negInf else .posInf
  | .posInf, .finite b => if b = 0 then .nan else if 0 < b then .posInf else .negInf
  | .negInf, .finite b => if b = 0 then .nan else if 0 < b then .negInf else .posInf
  | .posInf, .posInf => .posInf
  | .posInf, .negInf => .negInf
  | .negInf, .posInf => .negInf
  | .negInf, .negInf => .posInf

/-- Truncation of a rational toward zero. -/
def truncQ (q : ℚ) : ℤ :=
  if 0 ≤ q then ⌊q⌋ else ⌈q⌉

/-- Whether a `float64` converts to a 64-bit `int`: it is finite and its
truncation lies in `[-2^63, 2^63)`. -/
def Float64.fitsInt : Float64 → Prop
  | .finite q => -(2 : ℤ) ^ (63 : ℕ) ≤ truncQ q ∧ truncQ q < (2 : ℤ) ^ (63 : ℕ)
  | _ => False

instance : DecidablePred Float64.fitsInt := fun x =>
  match x with
  | .finite q =>
    inferInstanceAs (Decidable (-(2 : ℤ) ^ (63 : ℕ) ≤ truncQ q ∧ truncQ q < (2 : ℤ) ^ (63 : ℕ)))
  | .posInf => isFalse (fun h => h)
  | .negInf => isFalse (fun h => h)
  | .nan => isFalse (fun h => h)

/-- The conversion `int(x)` of a `float64` to the 64-bit `int`: the fraction is
discarded; when the value does not fit, the conversion still succeeds and its
result is implementation-dependent (Go specification), given here by `conv`. -/
def Float64.toInt (conv : Float64 → Int) (x : Float64) : Int :=
  match x with
  | .finite q =>
    if -(2 : ℤ) ^ (63 : ℕ) ≤ truncQ q ∧ truncQ q < (2 : ℤ) ^ (63 : ℕ) then truncQ q else conv x
  | _ => conv x

/-- The result of an out-of-range conversion on amd64: the instruction
`CVTTSD2SQ` yields the integer indefinite value `-2^63` for every such input. -/
def convAMD64 : Float64 → Int :=
  fun _ => -(2 : ℤ) ^ (63 : ℕ)

/-- Wrap-around of 64-bit signed arithmetic. -/
def wrapInt64 (x : Int) : Int :=
  (x + 2 ^ 63) % 2 ^ 64 - 2 ^ 63

/-- The range of `int64`. -/
def isInt64 (x : Int) : Prop :=
  -(2 : ℤ) ^ (63 : ℕ) ≤ x ∧ x < (2 : ℤ) ^ (63 : ℕ)

instance : DecidablePred isInt64 := fun x =>
  inferInstanceAs (Decidable (-(2 : ℤ) ^ (63 : ℕ) ≤ x ∧ x < (2 : ℤ) ^ (63 : ℕ)))

/-! ## `ProgressBar` (image.go 30-67) -/

/-- The Go struct `ProgressBar`. -/
structure ProgressBar where
  percent : Int
  rawTotal : Int
  rawCurrent : Int
deriving DecidableEq, Repr

/-- The function `NewProgressBar`. -/
def NewProgressBar (total : Int) : ProgressBar :=
  { percent := 0, rawTotal := total, rawCurrent := 0 }

/-- The method `Done`. -/
def ProgressBar.Done (pb : ProgressBar) : ProgressBar :=
  { pb with rawCurrent := pb.rawTotal, percent := 100 }

/-- The `float64` value `100.0*(float64(current) / float64(total))` of line 49. -/
def percentFloat (total current : Int) : Float64 :=
  Float64.mul (.finite 100) (Float64.div (Float64.ofInt current) (Float64.ofInt total))

/-- The method `Update`: the bar after the call and the result `hasChanged`. -/
def ProgressBar.Update (conv : Float64 → Int) (pb : ProgressBar) (currentValue : Int) :
    ProgressBar × Bool :=
  let percent := Float64.toInt conv (percentFloat pb.rawTotal currentValue)
  ({ pb with rawCurrent := currentValue, percent := percent }, decide (percent ≠ pb.percent))

/-- The count `done` of `=` characters computed by `String` (line 59). -/
def ProgressBar.doneCount (pb : ProgressBar) : Int :=
  Int.tdiv (wrapInt64 (pb.percent * 40)) 100

/-- The count `todo` of blank characters computed by `String` (line 60). -/
def ProgressBar.todoCount (pb : ProgressBar) : Int :=
  wrapInt64 (40 - pb.doneCount)

/-- The method `String`; `strings.Repeat` panics on a negative count. -/
def ProgressBar.String (pb : ProgressBar) : Except GoAbort String :=
  if pb.doneCount < 0 ∨ pb.todoCount < 0 then .error .negativeRepeat
  else
    .ok ("[" ++ String.mk (List.replicate pb.doneCount.toNat '=') ++ ">" ++
      String.mk (List.replicate pb.todoCount.toNat ' ') ++ "]" ++
      " " ++ toString pb.percent ++ " % (" ++ toString pb.rawCurrent ++ "/" ++
      toString pb.rawTotal ++ ")")

/-! ## `NewImageConfig`: content-ID resolution (image.go 122-132) -/

/-- The loop of `NewImageConfig` over `imageConfig.History`, from the entry the
loop is at, with the current value of the cursor `layerIdx` into `DiffIds`. -/
def resolveHistoryIDs (diffIds : List String) :
    List ImageHistoryEntry → Int → Except GoAbort (List ImageHistoryEntry)
  | [], _ => .ok []
  | h :: hs, layerIdx =>
    if h.EmptyLayer then
      match resolveHistoryIDs diffIds hs layerIdx with
      | .error e => .error e
      | .ok rest => .ok ({ h with ID := "<missing>" } :: rest)
    else
      match indexAt diffIds layerIdx with
      | .error e => .error e
      | .ok d =>
        match resolveHistoryIDs diffIds hs (layerIdx + 1) with
        | .error e => .error e
        | .ok rest => .ok ({ h with ID := d } :: rest)

/-- The function `NewImageConfig`. The bytes read from the tar entry and
`json.Unmarshal` are represented by the outcome `decoded` of the decoding
(`none` when the read or the decoding fails, which the code answers with `panic(err)`). -/
def NewImageConfig (decoded : Option ImageConfig) : Except GoAbort ImageConfig :=
  match decoded with
  | none => .error .panicErr
  | some imageConfig =>
    match resolveHistoryIDs imageConfig.RootFs.DiffIds imageConfig.History 0 with
    | .error e => .error e
    | .ok history => .ok { imageConfig with History := history }

/-! ## `InitializeData`: reconciliation (image.go 284-320) -/

/-- The slice `trees` built from the manifest paths and the map of layer trees
(a missing key of a Go map of pointers reads as nil). -/
def buildTrees (layerMap : String → Option FileTree) (paths : List String) :
    List (Option FileTree) :=
  paths.map layerMap

/-- The loop `for idx := 0; idx < len(config.History); idx++` of `InitializeData`,
from position `idx`, with the remaining history entries, the cursor `layerIdx`
and the slice `layers` filled so far. -/
def reconcileLoop (paths : List String) (trees : List (Option FileTree)) :
    Nat → List ImageHistoryEntry → Int → List (Option Layer) →
      Except GoAbort (List (Option Layer))
  | _, [], _, layers => .ok layers
  | idx, h :: hs, layerIdx, layers =>
    if h.EmptyLayer then
      reconcileLoop paths trees (idx + 1) hs layerIdx layers
    else
      match indexAt trees (((trees.length : Int) - 1) - layerIdx) with
      | .error e => .error e
      | .ok none => .error .nilDereference
      | .ok (some sizeTree) =>
        match indexAt trees layerIdx with
        | .error e => .error e
        | .ok tree =>
          if layerIdx < 0 ∨ (layers.length : Int) ≤ layerIdx then .error .indexOutOfRange
          else
            let layer : Layer :=
              { TarPath := ""
                History := { h with Size := sizeTree.FileSize }
                Index := layerIdx
                Tree := tree
                RefTrees := trees }
            if paths.length > idx then
              match indexAt paths layerIdx with
              | .error e => .error e
              | .ok p =>
                reconcileLoop paths trees (idx + 1) hs (layerIdx - 1)
                  (layers.set layerIdx.toNat (some { layer with TarPath := p }))
            else
              reconcileLoop paths trees (idx + 1) hs (layerIdx - 1)
                (layers.set layerIdx.toNat (some layer))

/-- Lines 284-320 of `InitializeData`: from the manifest, the map of layer trees
and the resolved config, the returned pair `(layers, trees)`. -/
def reconcile (manifest : ImageManifest) (layerMap : String → Option FileTree)
    (config : ImageConfig) : Except GoAbort (List (Option Layer) × List (Option FileTree)) :=
  let trees := buildTrees layerMap manifest.LayerTarPaths
  let layers : List (Option Layer) := List.replicate trees.length none
  match reconcileLoop manifest.LayerTarPaths trees 0 config.History
      ((trees.length : Int) - 1) layers with
  | .error e => .error e
  | .ok out => .ok (out, trees)

/-- The number of history entries with `EmptyLayer = false`. -/
def nonEmptyCount (history : List ImageHistoryEntry) : Nat :=
  (history.filter (fun h => !h.EmptyLayer)).length

/-! ## The archive walk of `InitializeData` (image.go 94-107, 135-190, 222-282, 396-425)

The exported image is a list of tar entries. The byte-level decoders of the
libraries `archive/tar` and `encoding/json` are parameters. The percentage of
line 242 is only written to the terminal and is left out.

Every layer entry starts a task `go processLayerTar(...)`, and every task ends
by storing its tree in the one unsynchronised map `layerMap` (line 188); the
walk waits for all tasks (`frame.Wait()`) before the trees are read. What a task
computes does not depend on the others, so its tree is computed where the task
is dispatched. The stores do depend on the scheduling: from the second task on,
a store may overlap the store of another task, which the Go runtime answers by
ending the process with `fatal error: concurrent map writes`. The scheduling is
the parameter `race`: `race k` tells whether the store of task number `k`
(counted from 0 in dispatch order) overlaps another one. -/

/-- The values of `header.Typeflag` the walk distinguishes. -/
inductive TarType where
  | dir
  | reg
  | other
deriving DecidableEq, Repr

/-- An entry of the outer archive: its header fields and its bytes. -/
structure TarEntry where
  Typeflag : TarType
  Name : String
  Size : Int
  Content : List UInt8
deriving DecidableEq

/-- The values of `header.Typeflag` that `getFileList` distinguishes. -/
inductive InnerType where
  | xGlobalHeader
  | xHeader
  | other
deriving DecidableEq, Repr

/-- A header of an embedded layer archive. -/
structure InnerHeader where
  Typeflag : InnerType
  Name : String
  Size : Int
deriving DecidableEq, Repr

/-- The external decoders: `json.Unmarshal` into `[]ImageManifest` and into
`ImageConfig`, and the sequence of headers read by `tar.Reader.Next` from the
bytes of a layer; `none` stands for an error of the library. -/
structure Decoders where
  unmarshalManifest : List UInt8 → Option (List ImageManifest)
  unmarshalConfig : List UInt8 → Option ImageConfig
  untar : List UInt8 → Option (List InnerHeader)

/-- The Go function `strings.HasSuffix`, on characters: for well-formed UTF-8 this
is the comparison of the trailing bytes. -/
def hasSuffix (s suffix : String) : Bool :=
  suffix.data.isSuffixOf s.data

/-- The zero value of `ImageManifest`. -/
def zeroManifest : ImageManifest :=
  { ConfigPath := "", RepoTags := [], LayerTarPaths := [] }

/-- The zero value of `ImageConfig`. -/
def zeroConfig : ImageConfig :=
  { History := [], RootFs := { FsType := "", DiffIds := [] } }

/-- The function `NewImageManifest`: decode and return `manifest[0]`. -/
def NewImageManifest (dec : Decoders) (manifestBytes : List UInt8) :
    Except GoAbort ImageManifest :=
  match dec.unmarshalManifest manifestBytes with
  | none => .error .panicErr
  | some manifest => indexAt manifest 0

/-- The loop of `GetImageConfig` over the entries, `config` being the value of
the local variable so far. -/
def getImageConfigLoop (dec : Decoders) (manifest : ImageManifest) :
    List TarEntry → ImageConfig → Except GoAbort ImageConfig
  | [], config => .ok config
  | e :: es, config =>
    if e.Name = manifest.ConfigPath then
      match NewImageConfig (dec.unmarshalConfig e.Content) with
      | .error x => .error x
      | .ok c => getImageConfigLoop dec manifest es c
    else getImageConfigLoop dec manifest es config

/-- The function `GetImageConfig`. -/
def GetImageConfig (dec : Decoders) (archive : List TarEntry) (manifest : ImageManifest) :
    Except GoAbort ImageConfig :=
  getImageConfigLoop dec manifest archive zeroConfig

/-- The function `getFileList`: a read error ends the process, extended headers
are reported and skipped, every other header gives a `FileInfo`. -/
def getFileList (dec : Decoders) (tarredBytes : List UInt8) : Except GoAbort (List FileInfo) :=
  match dec.untar tarredBytes with
  | none => .error .exit1
  | some headers =>
    .ok ((headers.filter (fun h => h.Typeflag = .other)).map
      (fun h => { Path := h.Name, Size := h.Size }))

/-- The statements `tree.FileSize += uint64(...)` and `tree.AddPath(...)` of the
loop of `processLayerTar`; the sum wraps as a `uint64`. -/
def addFile (tree : FileTree) (element : FileInfo) : FileTree :=
  { tree with
    FileSize := (tree.FileSize + (element.Size % 2 ^ 64).toNat) % 2 ^ 64
    Paths := tree.Paths ++ [element] }

/-- The statement `if pb.Update(v) { io.WriteString(line, ... pb.String()) }`:
the bar after it, or the panic of `String`. -/
def updateAndReport (conv : Float64 → Int) (pb : ProgressBar) (v : Int) :
    Except GoAbort ProgressBar :=
  if (pb.Update conv v).2 then
    match (pb.Update conv v).1.String with
    | .error x => .error x
    | .ok _ => .ok (pb.Update conv v).1
  else .ok (pb.Update conv v).1

/-- The loop of `processLayerTar` over `fileInfos`, at index `idx`. -/
def processLayerLoop (conv : Float64 → Int) :
    ProgressBar → FileTree → Nat → List FileInfo → Except GoAbort (ProgressBar × FileTree)
  | pb, tree, _, [] => .ok (pb, tree)
  | pb, tree, idx, element :: rest =>
    match updateAndReport conv pb (idx : Int) with
    | .error x => .error x
    | .ok pb' => processLayerLoop conv pb' (addFile tree element) (idx + 1) rest

/-- The function `processLayerTar`, returning the tree it stores in `layerMap`. -/
def processLayerTar (dec : Decoders) (conv : Float64 → Int) (name : String)
    (tarredBytes : List UInt8) : Except GoAbort FileTree :=
  match getFileList dec tarredBytes with
  | .error x => .error x
  | .ok fileInfos =>
    if name.utf8ByteSize < 15 then .error .sliceBounds
    else
      match processLayerLoop conv (NewProgressBar (fileInfos.length : Int))
          { Name := name, FileSize := 0, Paths := [] } 0 fileInfos with
      | .error x => .error x
      | .ok (pb, tree) =>
        match pb.Done.String with
        | .error x => .error x
        | .ok _ => .ok tree

/-- The loop of `InitializeData` over the entries of the outer archive, with the
current `manifest` and `layerMap` and the number `dispatched` of layer tasks
started so far. -/
def walkArchive (dec : Decoders) (conv : Float64 → Int) (race : Nat → Bool) :
    List TarEntry → ImageManifest → (String → Option FileTree) → Nat →
      Except GoAbort (ImageManifest × (String → Option FileTree))
  | [], manifest, layerMap, _ => .ok (manifest, layerMap)
  | e :: es, manifest, layerMap, dispatched =>
    match e.Typeflag with
    | .dir => walkArchive dec conv race es manifest layerMap dispatched
    | .reg =>
      if hasSuffix e.Name "layer.tar" then
        if e.Name.utf8ByteSize < 15 then .error .sliceBounds
        else
          match processLayerTar dec conv e.Name e.Content with
          | .error x => .error x
          | .ok tree =>
            if 0 < dispatched ∧ race dispatched = true then .error .concurrentMapWrites
            else
              walkArchive dec conv race es manifest
                (fun n => if n = tree.Name then some tree else layerMap n) (dispatched + 1)
      else if e.Name = "manifest.json" then
        match NewImageManifest dec e.Content with
        | .error x => .error x
        | .ok m => walkArchive dec conv race es m layerMap dispatched
      else walkArchive dec conv race es manifest layerMap dispatched
    | .other => walkArchive dec conv race es manifest layerMap dispatched

/-- The function `InitializeData`, from the opened archive on (lines 222-320). -/
def InitializeData (dec : Decoders) (conv : Float64 → Int) (race : Nat → Bool)
    (archive : List TarEntry) :
    Except GoAbort (List (Option Layer) × List (Option FileTree)) :=
  match walkArchive dec conv race archive zeroManifest (fun _ => none) 0 with
  | .error x => .error x
  | .ok (manifest, layerMap) =>
    match GetImageConfig dec archive manifest with
    | .error x => .error x
    | .ok config => reconcile manifest layerMap config

/-- The number of layer tasks the walk dispatches for an archive: its regular
entries whose name ends in `layer.tar`. -/
def layerTaskCount (archive : List TarEntry) : Nat :=
  (archive.filter (fun e => decide (e.Typeflag = .reg) && hasSuffix e.Name "layer.tar")).length

/-- A layer entry the walk can process: its name has at least 15 bytes, its
bytes are a readable archive, and the number of its headers fits an `int64`. -/
def processable (dec : Decoders) (e : TarEntry) : Bool :=
  decide (15 ≤ e.Name.utf8ByteSize) &&
    match dec.untar e.Content with
    | some headers => decide (isInt64 (headers.length : Int))
    | none => false

/-! ## Auxiliary definitions used to state the results -/

/-- The IDs of the entries with content, in array order. -/
def contentIDs (history : List ImageHistoryEntry) : List String :=
  (history.filter (fun h => !h.EmptyLayer)).map (fun h => h.ID)

/-- The entries with content, each with its position in the history array,
for a history whose first entry sits at position `idx`. -/
def contentEntries : Nat → List ImageHistoryEntry → List (Nat × ImageHistoryEntry)
  | _, [] => []
  | idx, h :: hs =>
    if h.EmptyLayer then contentEntries (idx + 1) hs
    else (idx, h) :: contentEntries (idx + 1) hs

/-- The layer record the loop body stores at cursor `li` for the history entry
`h` found at position `pos`, when no access fails. -/
def layerAt (paths : List String) (trees : List (Option FileTree)) (pos : Nat)
    (h : ImageHistoryEntry) (li : Nat) : Layer :=
  { TarPath := if paths.length > pos then paths.getD li "" else ""
    History :=
      { h with Size := ((trees.getD (trees.length - 1 - li) none).map (fun t => t.FileSize)).getD 0 }
    Index := (li : Int)
    Tree := trees.getD li none
    RefTrees := trees }

/-- The rational denoted by `100.0*(float64(current) / float64(total))` when no
operation overflows and `total` is not zero: three roundings of the conversions,
one of the quotient and one of the product. -/
def percentQ (total current : Int) : ℚ :=
  roundToGrid (100 * roundToGrid (roundToGrid (current : ℚ) / roundToGrid (total : ℚ)))

/-- The percents stored by successive calls of `Update` with the values `vs`. -/
def percentsAfter (conv : Float64 → Int) : ProgressBar → List Int → List Int
  | _, [] => []
  | pb, v :: vs => (pb.Update conv v).1.percent :: percentsAfter conv (pb.Update conv v).1 vs

end Dive

/-! ## Concrete inputs -/

namespace Dive.Test

/-- A history entry as decoded from the config: only `created` and `empty_layer` set. -/
def hist (name : String) (empty : Bool) : ImageHistoryEntry :=
  { ID := "", Size := 0, Created := name, Author := "", CreatedBy := "", EmptyLayer := empty }

/-- The history `h0, h1 (empty), h2, h3`. -/
def exHistory : List ImageHistoryEntry :=
  [hist "h0" false, hist "h1" true, hist "h2" false, hist "h3" false]

/-- A manifest with the three layer paths `L0, L1, L2`. -/
def exManifest : ImageManifest :=
  { ConfigPath := "cfg.json", RepoTags := [], LayerTarPaths := ["L0", "L1", "L2"] }

/-- The map of layer trees: one tree per path, of sizes 10, 20 and 30. -/
def exLayerMap : String → Option FileTree := fun n =>
  if n = "L0" then some { Name := "L0", FileSize := 10, Paths := [] }
  else if n = "L1" then some { Name := "L1", FileSize := 20, Paths := [] }
  else if n = "L2" then some { Name := "L2", FileSize := 30, Paths := [] }
  else none

/-- The decoded config: the example history and the diff IDs `d0, d1, d2`. -/
def exConfig : ImageConfig :=
  { History := exHistory, RootFs := { FsType := "layers", DiffIds := ["d0", "d1", "d2"] } }

/-- A config with one entry with content and two diff IDs. -/
def surplusConfig : ImageConfig :=
  { History := [hist "h0" false], RootFs := { FsType := "layers", DiffIds := ["d0", "d1"] } }

/-- The example config after `NewImageConfig`. -/
def exResolved : ImageConfig :=
  { History :=
      [{ hist "h0" false with ID := "d0" }, { hist "h1" true with ID := "<missing>" },
       { hist "h2" false with ID := "d1" }, { hist "h3" false with ID := "d2" }]
    RootFs := { FsType := "layers", DiffIds := ["d0", "d1", "d2"] } }

/-- Decoders that reject every input. -/
def rejectAll : Decoders :=
  { unmarshalManifest := fun _ => none, unmarshalConfig := fun _ => none, untar := fun _ => none }

/-- Decoders for an archive whose layers each hold one file of 7 bytes. -/
def oneFile : Decoders :=
  { unmarshalManifest := fun _ => none
    unmarshalConfig := fun _ => none
    untar := fun _ => some [{ Typeflag := .other, Name := "etc/hosts", Size := 7 }] }

/-- An archive without `manifest.json`: a directory, a layer and a plain file. -/
def noManifestArchive : List TarEntry :=
  [{ Typeflag := .dir, Name := "0123456789abcdef/", Size := 0, Content := [] },
   { Typeflag := .reg, Name := "0123456789abcdef/layer.tar", Size := 3, Content := [1, 2, 3] },
   { Typeflag := .reg, Name := "repositories", Size := 2, Content := [123, 125] }]

/-- An archive without `manifest.json` holding two layers. -/
def twoLayerArchive : List TarEntry :=
  [{ Typeflag := .reg, Name := "0123456789abcdef/layer.tar", Size := 3, Content := [1, 2, 3] },
   { Typeflag := .reg, Name := "fedcba9876543210/layer.tar", Size := 3, Content := [4, 5, 6] }]

/-- An archive without `manifest.json` and without layers. -/
def plainArchive : List TarEntry :=
  [{ Typeflag := .dir, Name := "0123456789abcdef/", Size := 0, Content := [] },
   { Typeflag := .reg, Name := "repositories", Size := 2, Content := [123, 125] }]

end Dive.Test

/-! # Theorems -/

namespace Dive

/-! ## Slice indexing and counting -/

theorem indexAt_ofNat_some {α : Type} (xs : List α) (n : Nat) (x : α) (h : xs[n]? = some x) :
    indexAt xs (n : Int) = .ok x := by
  have h0 : ¬ ((n : Int) < 0) := by omega
  simp [indexAt, h0, h]

theorem indexAt_ofNat_none {α : Type} (xs : List α) (n : Nat) (h : xs.length ≤ n) :
    indexAt xs (n : Int) = .error .indexOutOfRange := by
  have h0 : ¬ ((n : Int) < 0) := by omega
  have h1 : xs[n]? = none := List.getElem?_eq_none h
  simp [indexAt, h0, h1]

theorem nonEmptyCount_cons_empty (h : ImageHistoryEntry) (hs : List ImageHistoryEntry)
    (he : h.EmptyLayer = true) : nonEmptyCount (h :: hs) = nonEmptyCount hs := by
  simp [nonEmptyCount, he]

theorem nonEmptyCount_cons_full (h : ImageHistoryEntry) (hs : List ImageHistoryEntry)
    (he : h.EmptyLayer = false) : nonEmptyCount (h :: hs) = nonEmptyCount hs + 1 := by
  simp [nonEmptyCount, he]

theorem resolveHistoryIDs_ok (diffIds : List String) :
    ∀ (hs : List ImageHistoryEntry) (c : Nat), c + nonEmptyCount hs ≤ diffIds.length →
      ∃ out, resolveHistoryIDs diffIds hs (c : Int) = .ok out ∧
        out.length = hs.length ∧
        (∀ idx h, hs[idx]? = some h → ∃ id, out[idx]? = some { h with ID := id } ∧
          (h.EmptyLayer = true → id = "<missing>") ∧
          (h.EmptyLayer = false → diffIds[c + nonEmptyCount (hs.take idx)]? = some id)) ∧
        contentIDs out = (diffIds.drop c).take (nonEmptyCount hs) := by
  intro hs
  induction hs with
  | nil =>
    intro c _
    refine ⟨[], rfl, rfl, ?_, ?_⟩
    · intro idx h hh
      simp at hh
    · simp [contentIDs, nonEmptyCount]
  | cons h hs ih =>
    intro c hc
    cases he : h.EmptyLayer with
    | true =>
      rw [nonEmptyCount_cons_empty h hs he] at hc
      obtain ⟨out, hout, hlen, hpt, hids⟩ := ih c hc
      refine ⟨{ h with ID := "<missing>" } :: out, ?_, ?_, ?_, ?_⟩
      · simp [resolveHistoryIDs, he, hout]
      · simp [hlen]
      · intro idx h' hh'
        cases idx with
        | zero =>
          simp at hh'
          subst hh'
          exact ⟨"<missing>", by simp, fun _ => rfl, fun hf => by simp [he] at hf⟩
        | succ k =>
          simp at hh'
          obtain ⟨id, h1, h2, h3⟩ := hpt k h' hh'
          refine ⟨id, by simpa using h1, h2, ?_⟩
          intro hf
          simpa [List.take_succ_cons, nonEmptyCount_cons_empty h _ he] using h3 hf
      · simp [contentIDs, he, nonEmptyCount_cons_empty h hs he] at hids ⊢
        exact hids
    | false =>
      rw [nonEmptyCount_cons_full h hs he] at hc
      have hlt : c < diffIds.length := by omega
      obtain ⟨out, hout, hlen, hpt, hids⟩ := ih (c + 1) (by omega)
      have hidx : indexAt diffIds (c : Int) = .ok diffIds[c] :=
        indexAt_ofNat_some diffIds c _ (List.getElem?_eq_getElem hlt)
      have hout2 : resolveHistoryIDs diffIds hs ((c : Int) + 1) = .ok out := by
        simpa using hout
      refine ⟨{ h with ID := diffIds[c] } :: out, ?_, ?_, ?_, ?_⟩
      · simp [resolveHistoryIDs, he, hidx, hout2]
      · simp [hlen]
      · intro idx h' hh'
        cases idx with
        | zero =>
          simp at hh'
          subst hh'
          refine ⟨diffIds[c], by simp, fun ht => by simp [he] at ht, fun _ => ?_⟩
          simp [nonEmptyCount, List.getElem?_eq_getElem hlt]
        | succ k =>
          simp at hh'
          obtain ⟨id, h1, h2, h3⟩ := hpt k h' hh'
          refine ⟨id, by simpa using h1, h2, ?_⟩
          intro hf
          have := h3 hf
          rw [List.take_succ_cons, nonEmptyCount_cons_full h _ he]
          rw [← this]
          congr 1
          omega
      · rw [nonEmptyCount_cons_full h hs he]
        have : contentIDs ({ h with ID := diffIds[c] } :: out) = diffIds[c] :: contentIDs out := by
          simp [contentIDs, he]
        rw [this, hids]
        rw [List.drop_eq_getElem_cons hlt, List.take_succ_cons]

/-! ## The reconciliation loop -/

theorem contentEntries_ids (hs : List ImageHistoryEntry) :
    ∀ idx, (contentEntries idx hs).map (fun p => p.2.ID) = contentIDs hs := by
  induction hs with
  | nil => intro idx; rfl
  | cons h hs ih =>
    intro idx
    cases he : h.EmptyLayer with
    | true => simpa [contentEntries, he, contentIDs] using ih (idx + 1)
    | false => simpa [contentEntries, he, contentIDs] using ih (idx + 1)

theorem reconcileLoop_ok (paths : List String) (trees : List (Option FileTree))
    (hpaths : paths.length = trees.length) (htrees : ∀ t ∈ trees, t ≠ none) :
    ∀ (hs : List ImageHistoryEntry) (idx c : Nat) (layers : List (Option Layer)),
      nonEmptyCount hs = c → c ≤ trees.length → layers.length = trees.length →
      ∃ out, reconcileLoop paths trees idx hs ((c : Int) - 1) layers = .ok out ∧
        out.length = trees.length ∧
        (∀ i, i < c → ∃ pe, (contentEntries idx hs)[c - 1 - i]? = some pe ∧
          out[i]? = some (some (layerAt paths trees pe.1 pe.2 i))) ∧
        (∀ i, c ≤ i → out[i]? = layers[i]?) := by
  intro hs
  induction hs with
  | nil =>
    intro idx c layers hc _ hl
    simp [nonEmptyCount] at hc
    subst hc
    exact ⟨layers, rfl, hl, by intro i hi; omega, fun _ _ => rfl⟩
  | cons h hs ih =>
    intro idx c layers hc hcN hl
    cases he : h.EmptyLayer with
    | true =>
      rw [nonEmptyCount_cons_empty h hs he] at hc
      obtain ⟨out, hout, hlen, hlow, hhigh⟩ := ih (idx + 1) c layers hc hcN hl
      refine ⟨out, ?_, hlen, ?_, hhigh⟩
      · simp [reconcileLoop, he, hout]
      · intro i hi
        simpa [contentEntries, he] using hlow i hi
    | false =>
      rw [nonEmptyCount_cons_full h hs he] at hc
      obtain ⟨c', rfl⟩ : ∃ c', c = c' + 1 := ⟨nonEmptyCount hs, hc.symm⟩
      have hc' : nonEmptyCount hs = c' := by omega
      have hcur : ((c' + 1 : Nat) : Int) - 1 = (c' : Int) := by push_cast; ring
      have hmir : ((trees.length : Int) - 1) - (c' : Int) = ((trees.length - 1 - c' : Nat) : Int) := by
        omega
      have hlt1 : trees.length - 1 - c' < trees.length := by omega
      have hlt2 : c' < trees.length := by omega
      obtain ⟨st, hst⟩ : ∃ st, trees[trees.length - 1 - c'] = some st := by
        have := htrees _ (List.getElem_mem hlt1)
        exact Option.ne_none_iff_exists'.mp this
      have hA : indexAt trees (((trees.length : Int) - 1) - (c' : Int)) = .ok (some st) := by
        rw [hmir]
        exact indexAt_ofNat_some _ _ _ (by rw [List.getElem?_eq_getElem hlt1, hst])
      have hB : indexAt trees (c' : Int) = .ok trees[c'] :=
        indexAt_ofNat_some _ _ _ (List.getElem?_eq_getElem hlt2)
      have hlt3 : c' < paths.length := by omega
      have hC : indexAt paths (c' : Int) = .ok paths[c'] :=
        indexAt_ofNat_some _ _ _ (List.getElem?_eq_getElem hlt3)
      have hG : ¬ ((c' : Int) < 0 ∨ (layers.length : Int) ≤ (c' : Int)) := by omega
      by_cases hp : paths.length > idx
      · obtain ⟨out, hout, hlen, hlow, hhigh⟩ := ih (idx + 1) c'
          (layers.set c' (some ⟨paths[c'], { h with Size := st.FileSize }, (c' : Int),
            trees[c'], trees⟩)) hc' (by omega) (by simp [hl])
        refine ⟨out, ?_, hlen, ?_, ?_⟩
        · rw [hcur]
          simp only [reconcileLoop, he, hA, hB, hC, hG, hp]
          simpa [he] using hout
        · intro i hi
          by_cases hic : i = c'
          · subst hic
            refine ⟨(idx, h), by simp [contentEntries, he], ?_⟩
            rw [hhigh i (le_refl _)]
            rw [List.getElem?_set_self (by omega)]
            simp [layerAt, hp, hst, List.getD_eq_getElem?_getD, List.getElem?_eq_getElem hlt1,
              List.getElem?_eq_getElem hlt2, List.getElem?_eq_getElem (show i < paths.length by omega)]
          · obtain ⟨pe, hpe, ho⟩ := hlow i (by omega)
            refine ⟨pe, ?_, ho⟩
            have : c' + 1 - 1 - i = (c' - 1 - i) + 1 := by omega
            rw [this]
            simpa [contentEntries, he] using hpe
        · intro i hi
          rw [hhigh i (by omega), List.getElem?_set_ne (by omega)]
      · obtain ⟨out, hout, hlen, hlow, hhigh⟩ := ih (idx + 1) c'
          (layers.set c' (some ⟨"", { h with Size := st.FileSize }, (c' : Int),
            trees[c'], trees⟩)) hc' (by omega) (by simp [hl])
        refine ⟨out, ?_, hlen, ?_, ?_⟩
        · rw [hcur]
          simp only [reconcileLoop, he, hA, hB, hG, hp]
          simpa [he] using hout
        · intro i hi
          by_cases hic : i = c'
          · subst hic
            refine ⟨(idx, h), by simp [contentEntries, he], ?_⟩
            rw [hhigh i (le_refl _)]
            rw [List.getElem?_set_self (by omega)]
            simp [layerAt, hp, hst, List.getD_eq_getElem?_getD, List.getElem?_eq_getElem hlt1,
              List.getElem?_eq_getElem hlt2]
          · obtain ⟨pe, hpe, ho⟩ := hlow i (by omega)
            refine ⟨pe, ?_, ho⟩
            have : c' + 1 - 1 - i = (c' - 1 - i) + 1 := by omega
            rw [this]
            simpa [contentEntries, he] using hpe
        · intro i hi
          rw [hhigh i (by omega), List.getElem?_set_ne (by omega)]

theorem resolveHistoryIDs_short (diffIds : List String) :
    ∀ (hs : List ImageHistoryEntry) (c : Nat), c ≤ diffIds.length →
      diffIds.length < c + nonEmptyCount hs →
      resolveHistoryIDs diffIds hs (c : Int) = .error .indexOutOfRange := by
  intro hs
  induction hs with
  | nil => intro c hle hc; simp [nonEmptyCount] at hc; omega
  | cons h hs ih =>
    intro c hle hc
    cases he : h.EmptyLayer with
    | true =>
      rw [nonEmptyCount_cons_empty h hs he] at hc
      simp [resolveHistoryIDs, he, ih c hle hc]
    | false =>
      rw [nonEmptyCount_cons_full h hs he] at hc
      by_cases hlt : c < diffIds.length
      · have hidx : indexAt diffIds (c : Int) = .ok diffIds[c] :=
          indexAt_ofNat_some diffIds c _ (List.getElem?_eq_getElem hlt)
        have := ih (c + 1) (by omega) (by omega)
        have h2 : resolveHistoryIDs diffIds hs ((c : Int) + 1) = .error .indexOutOfRange := by
          simpa using this
        simp [resolveHistoryIDs, he, hidx, h2]
      · have hidx := indexAt_ofNat_none diffIds c (by omega)
        simp [resolveHistoryIDs, he, hidx]

theorem reconcile_ok (manifest : ImageManifest) (layerMap : String → Option FileTree)
    (config : ImageConfig)
    (hcount : nonEmptyCount config.History = manifest.LayerTarPaths.length)
    (htrees : ∀ p ∈ manifest.LayerTarPaths, layerMap p ≠ none) :
    ∃ layers, reconcile manifest layerMap config =
        .ok (layers, buildTrees layerMap manifest.LayerTarPaths) ∧
      layers.length = manifest.LayerTarPaths.length ∧
      ∀ i, i < manifest.LayerTarPaths.length →
        ∃ pe, (contentEntries 0 config.History)[manifest.LayerTarPaths.length - 1 - i]? = some pe ∧
          layers[i]? = some (some (layerAt manifest.LayerTarPaths
            (buildTrees layerMap manifest.LayerTarPaths) pe.1 pe.2 i)) := by
  have hlen : (buildTrees layerMap manifest.LayerTarPaths).length = manifest.LayerTarPaths.length := by
    simp [buildTrees]
  have hnn : ∀ t ∈ buildTrees layerMap manifest.LayerTarPaths, t ≠ none := by
    intro t ht
    simp only [buildTrees, List.mem_map] at ht
    obtain ⟨p, hp, rfl⟩ := ht
    exact htrees p hp
  obtain ⟨out, hout, hol, hlow, _⟩ := reconcileLoop_ok manifest.LayerTarPaths
    (buildTrees layerMap manifest.LayerTarPaths) hlen.symm hnn config.History 0
    manifest.LayerTarPaths.length
    (List.replicate (buildTrees layerMap manifest.LayerTarPaths).length none)
    hcount (by omega) (by simp)
  refine ⟨out, ?_, by omega, hlow⟩
  simp only [reconcile, hlen] at hout ⊢
  rw [hout]

/-- What the reconciliation stores, for every well-formed input: the layer at
index `i` is built from the entry with content number `N-1-i` of the history,
found at position `pos`; it owns `trees[i]`, shares `trees`, takes its
`History.Size` from the tree at the mirrored index `N-1-i`, and gets
`TarPath = LayerTarPaths[i]` only when `pos` is below the number of paths. -/
theorem reconcile_layer_fields (manifest : ImageManifest) (layerMap : String → Option FileTree)
    (config : ImageConfig)
    (hcount : nonEmptyCount config.History = manifest.LayerTarPaths.length)
    (htrees : ∀ p ∈ manifest.LayerTarPaths, layerMap p ≠ none) :
    ∃ layers trees, reconcile manifest layerMap config = .ok (layers, trees) ∧
      trees = manifest.LayerTarPaths.map layerMap ∧
      ∀ i, i < manifest.LayerTarPaths.length →
        ∃ pos h l t p, (contentEntries 0 config.History)[manifest.LayerTarPaths.length - 1 - i]? =
            some (pos, h) ∧
          layers[i]? = some (some l) ∧ l.Index = (i : Int) ∧
          trees[i]? = some l.Tree ∧ l.RefTrees = trees ∧
          trees[manifest.LayerTarPaths.length - 1 - i]? = some (some t) ∧
          l.History = { h with Size := t.FileSize } ∧
          manifest.LayerTarPaths[i]? = some p ∧
          l.TarPath = if pos < manifest.LayerTarPaths.length then p else "" := by
  obtain ⟨layers, hrec, _, hpt⟩ := reconcile_ok manifest layerMap config hcount htrees
  refine ⟨layers, _, hrec, rfl, ?_⟩
  intro i hi
  obtain ⟨⟨pos, h⟩, hpe, hl⟩ := hpt i hi
  have hlen : (buildTrees layerMap manifest.LayerTarPaths).length =
      manifest.LayerTarPaths.length := by simp [buildTrees]
  have hm : manifest.LayerTarPaths.length - 1 - i < manifest.LayerTarPaths.length := by omega
  obtain ⟨t, ht⟩ : ∃ t, layerMap manifest.LayerTarPaths[manifest.LayerTarPaths.length - 1 - i] =
      some t :=
    Option.ne_none_iff_exists'.mp (htrees _ (List.getElem_mem hm))
  have htm : (buildTrees layerMap manifest.LayerTarPaths)[manifest.LayerTarPaths.length - 1 - i]? =
      some (some t) := by
    simp [buildTrees, List.getElem?_map, List.getElem?_eq_getElem hm, ht]
  have hti : (buildTrees layerMap manifest.LayerTarPaths)[i]? =
      some (layerMap manifest.LayerTarPaths[i]) := by
    simp [buildTrees, List.getElem?_map, List.getElem?_eq_getElem hi]
  refine ⟨pos, h, _, t, manifest.LayerTarPaths[i], hpe, hl, rfl, ?_, rfl, htm, ?_,
    List.getElem?_eq_getElem hi, ?_⟩
  · simp [layerAt, List.getD_eq_getElem?_getD, hti]
  · simp [layerAt, List.getD_eq_getElem?_getD, hlen, htm]
  · simp [layerAt, List.getD_eq_getElem?_getD, List.getElem?_eq_getElem hi]

/-! ## Claims on the reconciliation and on the content-ID resolution -/

/-- C1: for every well-formed input (as many history entries with content as layer
paths, and a tree for every layer path) the reconciliation returns, the returned
layer slice has one entry per layer path, none of them nil, and the entry at
position `i` has `Index = i`: the indices read `0, 1, ..., N-1` in order. -/
theorem initializeData_layers_dense (manifest : ImageManifest)
    (layerMap : String → Option FileTree) (config : ImageConfig)
    (hcount : nonEmptyCount config.History = manifest.LayerTarPaths.length)
    (htrees : ∀ p ∈ manifest.LayerTarPaths, layerMap p ≠ none) :
    ∃ layers trees, reconcile manifest layerMap config = .ok (layers, trees) ∧
      layers.length = nonEmptyCount config.History ∧
      (∀ i, i < manifest.LayerTarPaths.length →
        ∃ l, layers[i]? = some (some l) ∧ l.Index = (i : Int)) ∧
      layers.map (fun l => l.map (fun l => l.Index)) =
        (List.range manifest.LayerTarPaths.length).map (fun (i : Nat) => some (i : Int)) := by
  obtain ⟨layers, hrec, hlen, hpt⟩ := reconcile_ok manifest layerMap config hcount htrees
  have hidx : ∀ i, i < manifest.LayerTarPaths.length →
      ∃ l, layers[i]? = some (some l) ∧ l.Index = (i : Int) := by
    intro i hi
    obtain ⟨pe, _, hl⟩ := hpt i hi
    exact ⟨_, hl, rfl⟩
  refine ⟨layers, _, hrec, by omega, hidx, ?_⟩
  apply List.ext_getElem?
  intro i
  by_cases hi : i < manifest.LayerTarPaths.length
  · obtain ⟨l, hl, hli⟩ := hidx i hi
    rw [List.getElem?_map, List.getElem?_map, hl, List.getElem?_range hi]
    simp only [Option.map_some', hli]
  · have h1 : layers[i]? = none := List.getElem?_eq_none (by omega)
    have h2 : (List.range manifest.LayerTarPaths.length)[i]? = none :=
      List.getElem?_eq_none (by simp; omega)
    rw [List.getElem?_map, List.getElem?_map, h1, h2]
    rfl

/-- Witness of C1 on the example with three layers and one empty history entry. -/
theorem initializeData_layers_dense_witness :
    nonEmptyCount Test.exResolved.History = Test.exManifest.LayerTarPaths.length ∧
    ∃ layers trees, reconcile Test.exManifest Test.exLayerMap Test.exResolved = .ok (layers, trees) ∧
      layers.length = nonEmptyCount Test.exResolved.History ∧
      (∀ i, i < Test.exManifest.LayerTarPaths.length →
        ∃ l, layers[i]? = some (some l) ∧ l.Index = (i : Int)) ∧
      layers.map (fun l => l.map (fun l => l.Index)) =
        (List.range Test.exManifest.LayerTarPaths.length).map (fun (i : Nat) => some (i : Int)) :=
  ⟨by decide, initializeData_layers_dense Test.exManifest Test.exLayerMap Test.exResolved
    (by decide) (by decide)⟩

/-- C2, evaluated at the example with tree sizes 10, 20, 30: the layer returned
at index 0 owns the tree of size 10 but carries `History.Size = 30`, the size of
the tree at the mirrored index 2 (line 302 reads `trees[(len(trees)-1)-layerIdx]`). -/
theorem initializeData_size_mirrored :
    ∃ layers trees l t, reconcile Test.exManifest Test.exLayerMap Test.exResolved =
        .ok (layers, trees) ∧
      layers[0]? = some (some l) ∧ l.Index = 0 ∧ l.Tree = some t ∧
      t.FileSize = 10 ∧ l.History.Size = 30 :=
  ⟨_, _, _, _, rfl, rfl, rfl, rfl, rfl, rfl⟩

/-- C3, evaluated at the example with paths `L0, L1, L2` and history
`h0, h1 (empty), h2, h3`: the layer returned at index 0 has no `TarPath`, because
the guard of line 311 tests the history position 3 against the 3 paths. -/
theorem initializeData_tarPath_dropped :
    ∃ layers trees l, reconcile Test.exManifest Test.exLayerMap Test.exResolved =
        .ok (layers, trees) ∧
      layers[0]? = some (some l) ∧ l.Index = 0 ∧ l.TarPath = "" ∧
      Test.exManifest.LayerTarPaths[0]? = some "L0" :=
  ⟨_, _, _, rfl, rfl, rfl, rfl, rfl⟩

/-- C4: when the number of history entries with content equals the number of diff
IDs, `NewImageConfig` returns; every entry keeps its fields except `ID`; an empty
entry gets `"<missing>"`; an entry with content at position `idx` gets
`DiffIds[r]`, `r` being the number of entries with content before `idx`; and the
IDs of the entries with content, read in array order, are exactly `DiffIds`. -/
theorem newImageConfig_resolves_ids (cfg : ImageConfig)
    (hcount : nonEmptyCount cfg.History = cfg.RootFs.DiffIds.length) :
    ∃ out, NewImageConfig (some cfg) = .ok out ∧
      out.RootFs = cfg.RootFs ∧
      out.History.length = cfg.History.length ∧
      (∀ idx h, cfg.History[idx]? = some h →
        ∃ id, out.History[idx]? = some { h with ID := id } ∧
          (h.EmptyLayer = true → id = "<missing>") ∧
          (h.EmptyLayer = false →
            cfg.RootFs.DiffIds[nonEmptyCount (cfg.History.take idx)]? = some id)) ∧
      contentIDs out.History = cfg.RootFs.DiffIds := by
  obtain ⟨out, hout, hlen, hpt, hids⟩ :=
    resolveHistoryIDs_ok cfg.RootFs.DiffIds cfg.History 0 (by omega)
  have hout0 : resolveHistoryIDs cfg.RootFs.DiffIds cfg.History 0 = .ok out := by
    simpa using hout
  refine ⟨{ cfg with History := out }, ?_, rfl, hlen, ?_, ?_⟩
  · simp [NewImageConfig, hout0]
  · intro idx h hh
    simpa using hpt idx h hh
  · simpa [hcount] using hids

/-- Witness of C4 on the example history `h0, h1 (empty), h2, h3`. -/
theorem newImageConfig_resolves_ids_witness :
    nonEmptyCount Test.exConfig.History = Test.exConfig.RootFs.DiffIds.length ∧
    ∃ out, NewImageConfig (some Test.exConfig) = .ok out ∧
      out.RootFs = Test.exConfig.RootFs ∧
      out.History.length = Test.exConfig.History.length ∧
      (∀ idx h, Test.exConfig.History[idx]? = some h →
        ∃ id, out.History[idx]? = some { h with ID := id } ∧
          (h.EmptyLayer = true → id = "<missing>") ∧
          (h.EmptyLayer = false →
            Test.exConfig.RootFs.DiffIds[nonEmptyCount (Test.exConfig.History.take idx)]? =
              some id)) ∧
      contentIDs out.History = Test.exConfig.RootFs.DiffIds :=
  ⟨by decide, newImageConfig_resolves_ids Test.exConfig (by decide)⟩

/-- C5 fails as stated: with one history entry with content and two diff IDs the
counts differ, yet `NewImageConfig` returns a config and reports nothing. -/
theorem newImageConfig_surplus_tolerated :
    nonEmptyCount Test.surplusConfig.History ≠ Test.surplusConfig.RootFs.DiffIds.length ∧
    ∃ out, NewImageConfig (some Test.surplusConfig) = .ok out ∧
      out.History.map (fun h => h.ID) = ["d0"] :=
  ⟨by decide, _, rfl, rfl⟩

/-- C5 as amended: when the counts differ, either there are fewer diff IDs than
entries with content and `NewImageConfig` stops with an index-out-of-range panic,
yielding no config, or there are more and it returns a config in which the
entries with content carry the leading diff IDs, the surplus being ignored. -/
theorem newImageConfig_mismatch (cfg : ImageConfig)
    (hne : nonEmptyCount cfg.History ≠ cfg.RootFs.DiffIds.length) :
    (cfg.RootFs.DiffIds.length < nonEmptyCount cfg.History ∧
      NewImageConfig (some cfg) = .error .indexOutOfRange) ∨
    (nonEmptyCount cfg.History < cfg.RootFs.DiffIds.length ∧
      ∃ out, NewImageConfig (some cfg) = .ok out ∧
        contentIDs out.History = cfg.RootFs.DiffIds.take (nonEmptyCount cfg.History)) := by
  rcases Nat.lt_or_gt_of_ne hne with hlt | hgt
  · right
    obtain ⟨out, hout, _, _, hids⟩ :=
      resolveHistoryIDs_ok cfg.RootFs.DiffIds cfg.History 0 (by omega)
    have hout0 : resolveHistoryIDs cfg.RootFs.DiffIds cfg.History 0 = .ok out := by
      simpa using hout
    exact ⟨hlt, { cfg with History := out }, by simp [NewImageConfig, hout0], by simpa using hids⟩
  · left
    have := resolveHistoryIDs_short cfg.RootFs.DiffIds cfg.History 0 (by omega) (by omega)
    have h0 : resolveHistoryIDs cfg.RootFs.DiffIds cfg.History 0 = .error .indexOutOfRange := by
      simpa using this
    exact ⟨hgt, by simp [NewImageConfig, h0]⟩

/-- Witness of the amended C5 on the config with one entry and two diff IDs. -/
theorem newImageConfig_mismatch_witness :
    nonEmptyCount Test.surplusConfig.History ≠ Test.surplusConfig.RootFs.DiffIds.length ∧
    ((Test.surplusConfig.RootFs.DiffIds.length < nonEmptyCount Test.surplusConfig.History ∧
      NewImageConfig (some Test.surplusConfig) = .error .indexOutOfRange) ∨
    (nonEmptyCount Test.surplusConfig.History < Test.surplusConfig.RootFs.DiffIds.length ∧
      ∃ out, NewImageConfig (some Test.surplusConfig) = .ok out ∧
        contentIDs out.History =
          Test.surplusConfig.RootFs.DiffIds.take (nonEmptyCount Test.surplusConfig.History))) :=
  ⟨by decide, newImageConfig_mismatch Test.surplusConfig (by decide)⟩

/-- The number of entries with content is the number of their IDs. -/
theorem contentIDs_length (hs : List ImageHistoryEntry) :
    (contentIDs hs).length = nonEmptyCount hs := by
  simp [contentIDs, nonEmptyCount]

/-- C10 fails as stated: on the example (history `h0, h1 (empty), h2, h3`, diff IDs
`d0, d1, d2`) the resolved IDs read `d0, <missing>, d1, d2` in array order, and
the layer returned with `Index = 0` carries `d2`, not `DiffIds[0] = d0`. -/
theorem initializeData_ids_not_by_index :
    ∃ resolved layers trees l, NewImageConfig (some Test.exConfig) = .ok resolved ∧
      reconcile Test.exManifest Test.exLayerMap resolved = .ok (layers, trees) ∧
      resolved.History.map (fun h => h.ID) = ["d0", "<missing>", "d1", "d2"] ∧
      layers[0]? = some (some l) ∧ l.Index = 0 ∧ l.History.ID = "d2" ∧
      Test.exConfig.RootFs.DiffIds[0]? = some "d0" :=
  ⟨_, _, _, _, rfl, rfl, rfl, rfl, rfl, rfl, rfl⟩

/-- C10 as amended: for every well-formed input (as many history entries with
content as layer paths and as diff IDs, a tree for every layer path),
`NewImageConfig` followed by the reconciliation returns, the IDs of the entries
with content read in array order are the diff IDs in their own order, and the
layer with `Index = i` carries `History.ID = DiffIds[N-1-i]`. -/
theorem initializeData_ids_mirrored (manifest : ImageManifest)
    (layerMap : String → Option FileTree) (cfg : ImageConfig)
    (hcount : nonEmptyCount cfg.History = manifest.LayerTarPaths.length)
    (hdiff : cfg.RootFs.DiffIds.length = manifest.LayerTarPaths.length)
    (htrees : ∀ p ∈ manifest.LayerTarPaths, layerMap p ≠ none) :
    ∃ resolved layers trees, NewImageConfig (some cfg) = .ok resolved ∧
      reconcile manifest layerMap resolved = .ok (layers, trees) ∧
      contentIDs resolved.History = cfg.RootFs.DiffIds ∧
      ∀ i, i < manifest.LayerTarPaths.length →
        ∃ l, layers[i]? = some (some l) ∧ l.Index = (i : Int) ∧
          cfg.RootFs.DiffIds[manifest.LayerTarPaths.length - 1 - i]? = some l.History.ID := by
  obtain ⟨out, hout, _, _, hids⟩ :=
    resolveHistoryIDs_ok cfg.RootFs.DiffIds cfg.History 0 (by omega)
  have hout0 : resolveHistoryIDs cfg.RootFs.DiffIds cfg.History 0 = .ok out := by
    simpa using hout
  have hids2 : contentIDs out = cfg.RootFs.DiffIds := by
    simpa [hcount, ← hdiff] using hids
  have hcount2 : nonEmptyCount out = manifest.LayerTarPaths.length := by
    rw [← contentIDs_length, hids2, hdiff]
  obtain ⟨layers, hrec, _, hpt⟩ :=
    reconcile_ok manifest layerMap { cfg with History := out } hcount2 htrees
  refine ⟨{ cfg with History := out }, layers, _, by simp [NewImageConfig, hout0], hrec,
    hids2, ?_⟩
  intro i hi
  obtain ⟨pe, hpe, hl⟩ := hpt i hi
  refine ⟨_, hl, rfl, ?_⟩
  rw [← hids2, ← contentEntries_ids out 0, List.getElem?_map]
  simp only [] at hpe
  rw [hpe]
  rfl

/-- Witness of the amended C10 on the example with three layers. -/
theorem initializeData_ids_mirrored_witness :
    nonEmptyCount Test.exConfig.History = Test.exManifest.LayerTarPaths.length ∧
    ∃ resolved layers trees, NewImageConfig (some Test.exConfig) = .ok resolved ∧
      reconcile Test.exManifest Test.exLayerMap resolved = .ok (layers, trees) ∧
      contentIDs resolved.History = Test.exConfig.RootFs.DiffIds ∧
      ∀ i, i < Test.exManifest.LayerTarPaths.length →
        ∃ l, layers[i]? = some (some l) ∧ l.Index = (i : Int) ∧
          Test.exConfig.RootFs.DiffIds[Test.exManifest.LayerTarPaths.length - 1 - i]? =
            some l.History.ID :=
  ⟨by decide, initializeData_ids_mirrored Test.exManifest Test.exLayerMap Test.exConfig
    (by decide) (by decide) (by decide)⟩

/-! ## Rounding to the nearest integer -/

theorem roundHalfEven_ge_floor (x : ℚ) : ⌊x⌋ ≤ roundHalfEven x := by
  unfold roundHalfEven
  split_ifs <;> omega

theorem roundHalfEven_le_floor_succ (x : ℚ) : roundHalfEven x ≤ ⌊x⌋ + 1 := by
  unfold roundHalfEven
  split_ifs <;> omega

theorem roundHalfEven_intCast (n : ℤ) : roundHalfEven (n : ℚ) = n := by
  unfold roundHalfEven
  simp

theorem roundHalfEven_mono {x y : ℚ} (h : x ≤ y) : roundHalfEven x ≤ roundHalfEven y := by
  have hf : ⌊x⌋ ≤ ⌊y⌋ := Int.floor_mono h
  rcases lt_or_eq_of_le hf with hlt | heq
  · have h1 := roundHalfEven_le_floor_succ x
    have h2 := roundHalfEven_ge_floor y
    omega
  · unfold roundHalfEven
    rw [← heq]
    have hxy : x - ⌊x⌋ ≤ y - ⌊x⌋ := by linarith
    split_ifs <;> first | omega | (exfalso; linarith)

theorem roundHalfEven_neg (x : ℚ) : roundHalfEven (-x) = -roundHalfEven x := by
  by_cases hx : (⌊x⌋ : ℚ) = x
  · rw [← hx, ← Int.cast_neg, roundHalfEven_intCast, roundHalfEven_intCast]
  · have hfl : ⌊-x⌋ = -⌊x⌋ - 1 := by
      rw [Int.floor_eq_iff]
      have h1 := Int.floor_le x
      have h2 := Int.lt_floor_add_one x
      have h3 : (⌊x⌋ : ℚ) < x := lt_of_le_of_ne h1 hx
      push_cast
      constructor <;> linarith
    unfold roundHalfEven
    rw [hfl]
    push_cast
    have h1 := Int.floor_le x
    have h2 := Int.lt_floor_add_one x
    split_ifs <;> first | omega | (exfalso; linarith)

/-! ## Rounding to the binary64 grid -/

theorem two_zpow_pos (e : ℤ) : (0 : ℚ) < (2 : ℚ) ^ e := by positivity

theorem two_zpow_mono {a b : ℤ} (h : a ≤ b) : (2 : ℚ) ^ a ≤ (2 : ℚ) ^ b :=
  zpow_le_zpow_right₀ (by norm_num) h

theorem ulpExp_neg (q : ℚ) : ulpExp (-q) = ulpExp q := by
  simp [ulpExp]

theorem ulpExp_mono {q₁ q₂ : ℚ} (h₀ : 0 < q₁) (h : q₁ ≤ q₂) : ulpExp q₁ ≤ ulpExp q₂ := by
  unfold ulpExp
  have h1 : |q₁| = q₁ := abs_of_pos h₀
  have h2 : |q₂| = q₂ := abs_of_pos (lt_of_lt_of_le h₀ h)
  rw [h1, h2]
  have : Int.log 2 q₁ ≤ Int.log 2 q₂ := Int.log_mono_right h₀ h
  omega

theorem lt_two_zpow_ulpExp {q : ℚ} (h₀ : 0 < q) : q < (2 : ℚ) ^ (ulpExp q + 53) := by
  have h1 : q < ((2 : ℕ) : ℚ) ^ (Int.log 2 q + 1) := Int.lt_zpow_succ_log_self (by norm_num) q
  have h2 : Int.log 2 q + 1 ≤ ulpExp q + 53 := by
    unfold ulpExp
    rw [abs_of_pos h₀]
    omega
  have h3 := two_zpow_mono h2
  push_cast at h1
  linarith

theorem two_zpow_ulpExp_le {q : ℚ} (h₀ : 0 < q) (he : -1074 < ulpExp q) :
    (2 : ℚ) ^ (ulpExp q + 52) ≤ q := by
  have h1 : ((2 : ℕ) : ℚ) ^ (Int.log 2 q) ≤ q := Int.zpow_log_le_self (by norm_num) h₀
  have h2 : ulpExp q + 52 = Int.log 2 q := by
    unfold ulpExp at he ⊢
    rw [abs_of_pos h₀] at he ⊢
    omega
  rw [h2]
  push_cast at h1
  exact h1

theorem roundToGrid_neg (q : ℚ) : roundToGrid (-q) = -roundToGrid q := by
  unfold roundToGrid
  rw [ulpExp_neg, neg_div, roundHalfEven_neg]
  push_cast
  ring

theorem roundToGrid_nonneg {q : ℚ} (h : 0 ≤ q) : 0 ≤ roundToGrid q := by
  unfold roundToGrid
  have h1 : (0 : ℚ) ≤ q / (2 : ℚ) ^ ulpExp q := div_nonneg h (two_zpow_pos _).le
  have h2 := roundHalfEven_mono h1
  have h3 : roundHalfEven (0 : ℚ) = 0 := by
    have := roundHalfEven_intCast 0
    simpa using this
  rw [h3] at h2
  have h4 : (0 : ℚ) ≤ (roundHalfEven (q / (2 : ℚ) ^ ulpExp q) : ℚ) := by exact_mod_cast h2
  exact mul_nonneg h4 (two_zpow_pos _).le

theorem roundToGrid_le_top {q : ℚ} (h₀ : 0 < q) :
    roundToGrid q ≤ (2 : ℚ) ^ (ulpExp q + 53) := by
  unfold roundToGrid
  have hp := two_zpow_pos (ulpExp q)
  have h1 : q / (2 : ℚ) ^ ulpExp q ≤ (((2 : ℤ) ^ (53 : ℕ) : ℤ) : ℚ) := by
    rw [div_le_iff₀ hp]
    have := lt_two_zpow_ulpExp h₀
    rw [zpow_add₀ (by norm_num : (2 : ℚ) ≠ 0)] at this
    push_cast
    have h53 : (2 : ℚ) ^ (53 : ℤ) = (2 : ℚ) ^ (53 : ℕ) := by norm_cast
    rw [h53] at this
    linarith
  have h2 := roundHalfEven_mono h1
  rw [roundHalfEven_intCast] at h2
  have h3 : (roundHalfEven (q / (2 : ℚ) ^ ulpExp q) : ℚ) ≤ (2 : ℚ) ^ (53 : ℕ) := by
    exact_mod_cast h2
  rw [zpow_add₀ (by norm_num : (2 : ℚ) ≠ 0)]
  have h53 : (2 : ℚ) ^ (53 : ℤ) = (2 : ℚ) ^ (53 : ℕ) := by norm_cast
  rw [h53, mul_comm ((2 : ℚ) ^ ulpExp q)]
  exact mul_le_mul_of_nonneg_right h3 hp.le

theorem roundToGrid_ge_bottom {q : ℚ} (h₀ : 0 < q) (he : -1074 < ulpExp q) :
    (2 : ℚ) ^ (ulpExp q + 52) ≤ roundToGrid q := by
  unfold roundToGrid
  have hp := two_zpow_pos (ulpExp q)
  have h1 : (((2 : ℤ) ^ (52 : ℕ) : ℤ) : ℚ) ≤ q / (2 : ℚ) ^ ulpExp q := by
    rw [le_div_iff₀ hp]
    have := two_zpow_ulpExp_le h₀ he
    rw [zpow_add₀ (by norm_num : (2 : ℚ) ≠ 0)] at this
    push_cast
    have h52 : (2 : ℚ) ^ (52 : ℤ) = (2 : ℚ) ^ (52 : ℕ) := by norm_cast
    rw [h52] at this
    linarith
  have h2 := roundHalfEven_mono h1
  rw [roundHalfEven_intCast] at h2
  have h3 : (2 : ℚ) ^ (52 : ℕ) ≤ (roundHalfEven (q / (2 : ℚ) ^ ulpExp q) : ℚ) := by
    exact_mod_cast h2
  rw [zpow_add₀ (by norm_num : (2 : ℚ) ≠ 0)]
  have h52 : (2 : ℚ) ^ (52 : ℤ) = (2 : ℚ) ^ (52 : ℕ) := by norm_cast
  rw [h52, mul_comm ((2 : ℚ) ^ ulpExp q)]
  exact mul_le_mul_of_nonneg_right h3 hp.le

theorem roundToGrid_mono_pos {q₁ q₂ : ℚ} (h₀ : 0 < q₁) (h : q₁ ≤ q₂) :
    roundToGrid q₁ ≤ roundToGrid q₂ := by
  have he := ulpExp_mono h₀ h
  rcases lt_or_eq_of_le he with hlt | heq
  · have h1 := roundToGrid_le_top h₀
    have h2 := roundToGrid_ge_bottom (lt_of_lt_of_le h₀ h)
      (by have : -1074 ≤ ulpExp q₁ := by unfold ulpExp; omega
          omega)
    have h3 : (2 : ℚ) ^ (ulpExp q₁ + 53) ≤ (2 : ℚ) ^ (ulpExp q₂ + 52) :=
      two_zpow_mono (by omega)
    linarith
  · unfold roundToGrid
    rw [← heq]
    have hp := two_zpow_pos (ulpExp q₁)
    have h1 : q₁ / (2 : ℚ) ^ ulpExp q₁ ≤ q₂ / (2 : ℚ) ^ ulpExp q₁ :=
      div_le_div_of_nonneg_right h hp.le
    have h2 := roundHalfEven_mono h1
    have h3 : (roundHalfEven (q₁ / (2 : ℚ) ^ ulpExp q₁) : ℚ) ≤
        (roundHalfEven (q₂ / (2 : ℚ) ^ ulpExp q₁) : ℚ) := by exact_mod_cast h2
    exact mul_le_mul_of_nonneg_right h3 hp.le

theorem roundToGrid_mono {q₁ q₂ : ℚ} (h : q₁ ≤ q₂) : roundToGrid q₁ ≤ roundToGrid q₂ := by
  rcases lt_trichotomy 0 q₁ with hpos | hzero | hneg
  · exact roundToGrid_mono_pos hpos h
  · subst hzero
    have h1 := roundToGrid_nonneg (le_refl (0 : ℚ))
    have h2 := roundToGrid_neg 0
    rw [neg_zero] at h2
    have h3 : roundToGrid 0 = 0 := by linarith
    rw [h3]
    exact roundToGrid_nonneg h
  · rcases le_or_lt 0 q₂ with h2 | h2
    · have h1 : 0 ≤ roundToGrid (-q₁) := roundToGrid_nonneg (by linarith)
      rw [roundToGrid_neg] at h1
      have := roundToGrid_nonneg h2
      linarith
    · have : roundToGrid (-q₂) ≤ roundToGrid (-q₁) :=
        roundToGrid_mono_pos (by linarith) (by linarith)
      rw [roundToGrid_neg, roundToGrid_neg] at this
      linarith

theorem roundToGrid_zero : roundToGrid 0 = 0 := by
  have h2 := roundToGrid_neg 0
  rw [neg_zero] at h2
  linarith

/-- A value `m * 2^k` with fewer than 54 significant bits and an exponent within
the subnormal range is representable: rounding leaves it unchanged. -/
theorem roundToGrid_fix (m k : ℤ) (hm : |m| < 2 ^ (53 : ℕ)) (hk : -1074 ≤ k) :
    roundToGrid ((m : ℚ) * (2 : ℚ) ^ k) = (m : ℚ) * (2 : ℚ) ^ k := by
  by_cases hm0 : m = 0
  · subst hm0
    simp [roundToGrid_zero]
  · have hpk := two_zpow_pos k
    have habs : |(m : ℚ) * (2 : ℚ) ^ k| = (|m| : ℤ) * (2 : ℚ) ^ k := by
      rw [abs_mul, abs_of_pos hpk]
      push_cast
      rfl
    have hqpos : 0 < |(m : ℚ) * (2 : ℚ) ^ k| := by
      rw [abs_pos]
      exact mul_ne_zero (by exact_mod_cast hm0) hpk.ne'
    have hlt : |(m : ℚ) * (2 : ℚ) ^ k| < ((2 : ℕ) : ℚ) ^ (k + 53) := by
      rw [habs, zpow_add₀ (by norm_num : ((2 : ℕ) : ℚ) ≠ 0), mul_comm]
      push_cast
      have h53 : (2 : ℚ) ^ (53 : ℤ) = (2 : ℚ) ^ (53 : ℕ) := by norm_cast
      rw [h53]
      have hmq : |(m : ℚ)| < (2 : ℚ) ^ (53 : ℕ) := by exact_mod_cast hm
      exact mul_lt_mul_of_pos_left hmq hpk
    have hlog : Int.log 2 |(m : ℚ) * (2 : ℚ) ^ k| < k + 53 :=
      (Int.lt_zpow_iff_log_lt (by norm_num) hqpos).mp hlt
    have he : ulpExp ((m : ℚ) * (2 : ℚ) ^ k) ≤ k := by
      unfold ulpExp
      omega
    obtain ⟨d, hd⟩ : ∃ d : ℕ, k = ulpExp ((m : ℚ) * (2 : ℚ) ^ k) + d :=
      ⟨(k - ulpExp ((m : ℚ) * (2 : ℚ) ^ k)).toNat, by omega⟩
    unfold roundToGrid
    set e := ulpExp ((m : ℚ) * (2 : ℚ) ^ k) with he_def
    have hpe := two_zpow_pos e
    have hquot : (m : ℚ) * (2 : ℚ) ^ k / (2 : ℚ) ^ e = ((m * 2 ^ d : ℤ) : ℚ) := by
      rw [div_eq_iff hpe.ne']
      push_cast
      rw [mul_assoc]
      congr 1
      rw [hd, zpow_add₀ (by norm_num : (2 : ℚ) ≠ 0), mul_comm]
      congr 1
      norm_cast
    rw [hquot, roundHalfEven_intCast, ← hquot]
    field_simp

theorem roundToGrid_abs_le {q B : ℚ} (hB : roundToGrid B = B) (h : |q| ≤ B) :
    |roundToGrid q| ≤ B := by
  rw [abs_le] at h ⊢
  have h1 := roundToGrid_mono h.1
  have h2 := roundToGrid_mono h.2
  rw [roundToGrid_neg, hB] at h1
  rw [hB] at h2
  exact ⟨h1, h2⟩

theorem Float64.ofRat_finite {q : ℚ} (h : |roundToGrid q| < (2 : ℚ) ^ (1024 : ℕ)) :
    Float64.ofRat q = .finite (roundToGrid q) := by
  rw [abs_lt] at h
  unfold Float64.ofRat
  rw [if_neg (by linarith [h.2]), if_neg (by linarith [h.1])]

/-! ## The percentage of line 49 -/

theorem truncQ_intCast (n : ℤ) : truncQ (n : ℚ) = n := by
  unfold truncQ
  split_ifs <;> simp

theorem truncQ_mono {x y : ℚ} (h : x ≤ y) : truncQ x ≤ truncQ y := by
  unfold truncQ
  split_ifs with hx hy hy
  · exact Int.floor_mono h
  · exfalso; linarith
  · have h1 : ⌈x⌉ ≤ 0 := by
      rw [Int.ceil_le]
      push_cast
      linarith
    have h2 : 0 ≤ ⌊y⌋ := by
      rw [Int.le_floor]
      push_cast
      exact hy
    omega
  · exact Int.ceil_mono h

theorem roundToGrid_two_pow (k : ℕ) : roundToGrid ((2 : ℚ) ^ k) = (2 : ℚ) ^ k := by
  have := roundToGrid_fix 1 (k : ℤ) (by norm_num) (by omega)
  simpa using this

theorem roundToGrid_hundred_two_pow (k : ℕ) :
    roundToGrid (100 * (2 : ℚ) ^ k) = 100 * (2 : ℚ) ^ k := by
  have := roundToGrid_fix 100 (k : ℤ) (by norm_num) (by omega)
  simpa using this

theorem roundToGrid_one : roundToGrid 1 = 1 := by
  simpa using roundToGrid_two_pow 0

theorem roundToGrid_hundred : roundToGrid 100 = 100 := by
  simpa using roundToGrid_hundred_two_pow 0

theorem one_le_roundToGrid_total {total : Int} (hpos : 0 < total) :
    (1 : ℚ) ≤ roundToGrid (total : ℚ) := by
  have h1 : (1 : ℚ) ≤ (total : ℚ) := by exact_mod_cast hpos
  have := roundToGrid_mono h1
  rwa [roundToGrid_one] at this

theorem quotient_abs_le {total : Int} (hpos : 0 < total) {v : Int} {B : ℚ}
    (hB : roundToGrid B = B) (hv : |(v : ℚ)| ≤ B) :
    |roundToGrid (roundToGrid (v : ℚ) / roundToGrid (total : ℚ))| ≤ B := by
  have ht := one_le_roundToGrid_total hpos
  have h1 := roundToGrid_abs_le hB hv
  apply roundToGrid_abs_le hB
  rw [abs_div, abs_of_pos (by linarith : (0 : ℚ) < roundToGrid (total : ℚ))]
  have hB0 : 0 ≤ B := le_trans (abs_nonneg _) hv
  rw [div_le_iff₀ (by linarith)]
  nlinarith [abs_nonneg (roundToGrid (v : ℚ))]

theorem percentQ_abs_le {total : Int} (hpos : 0 < total) {v : Int} (k : ℕ)
    (hv : |(v : ℚ)| ≤ (2 : ℚ) ^ k) : |percentQ total v| ≤ 100 * (2 : ℚ) ^ k := by
  unfold percentQ
  apply roundToGrid_abs_le (roundToGrid_hundred_two_pow k)
  have := quotient_abs_le hpos (roundToGrid_two_pow k) hv
  rw [abs_mul]
  have h100 : |(100 : ℚ)| = 100 := abs_of_pos (by norm_num)
  rw [h100]
  linarith

theorem int64_abs_le {v : Int} (hv : isInt64 v) : |(v : ℚ)| ≤ (2 : ℚ) ^ (63 : ℕ) := by
  unfold isInt64 at hv
  rw [abs_le]
  constructor
  · have : ((-(2 : ℤ) ^ (63 : ℕ) : ℤ) : ℚ) ≤ (v : ℚ) := by exact_mod_cast hv.1
    simpa using this
  · have : (v : ℚ) ≤ (((2 : ℤ) ^ (63 : ℕ) : ℤ) : ℚ) := by exact_mod_cast hv.2.le
    simpa using this

theorem Float64.ofInt_int64 {v : Int} (hv : isInt64 v) :
    Float64.ofInt v = .finite (roundToGrid (v : ℚ)) := by
  unfold Float64.ofInt
  apply Float64.ofRat_finite
  have := roundToGrid_abs_le (roundToGrid_two_pow 63) (int64_abs_le hv)
  have h2 : (2 : ℚ) ^ (63 : ℕ) < (2 : ℚ) ^ (1024 : ℕ) := by norm_num
  linarith

/-- For a positive total and 64-bit operands no operation of line 49 overflows:
the float value is the finite number `percentQ`. -/
theorem percentFloat_eq {total v : Int} (ht : isInt64 total) (hpos : 0 < total)
    (hv : isInt64 v) : percentFloat total v = .finite (percentQ total v) := by
  have htot := one_le_roundToGrid_total hpos
  have hne : roundToGrid (total : ℚ) ≠ 0 := by linarith
  have hq := quotient_abs_le hpos (roundToGrid_two_pow 63) (int64_abs_le hv)
  have hp := percentQ_abs_le hpos 63 (int64_abs_le hv)
  have h2 : (2 : ℚ) ^ (63 : ℕ) < (2 : ℚ) ^ (1024 : ℕ) := by norm_num
  have h3 : 100 * (2 : ℚ) ^ (63 : ℕ) < (2 : ℚ) ^ (1024 : ℕ) := by norm_num
  unfold percentFloat
  rw [Float64.ofInt_int64 hv, Float64.ofInt_int64 ht]
  simp only [Float64.div, hne, if_false]
  rw [Float64.ofRat_finite (by linarith)]
  simp only [Float64.mul]
  rw [Float64.ofRat_finite (by unfold percentQ at hp; linarith)]
  rfl

theorem percentQ_mono {total : Int} (hpos : 0 < total) {v₁ v₂ : Int} (h : v₁ ≤ v₂) :
    percentQ total v₁ ≤ percentQ total v₂ := by
  have htot := one_le_roundToGrid_total hpos
  unfold percentQ
  apply roundToGrid_mono
  have h1 : roundToGrid (v₁ : ℚ) ≤ roundToGrid (v₂ : ℚ) :=
    roundToGrid_mono (by exact_mod_cast h)
  have h2 := roundToGrid_mono
    (div_le_div_of_nonneg_right h1 (by linarith : (0 : ℚ) ≤ roundToGrid (total : ℚ)))
  linarith

theorem percentQ_range {total v : Int} (hpos : 0 < total) (h0 : 0 ≤ v) (hle : v ≤ total) :
    0 ≤ percentQ total v ∧ percentQ total v ≤ 100 := by
  have htot := one_le_roundToGrid_total hpos
  have hv0 : 0 ≤ roundToGrid (v : ℚ) := roundToGrid_nonneg (by exact_mod_cast h0)
  have hvt : roundToGrid (v : ℚ) ≤ roundToGrid (total : ℚ) :=
    roundToGrid_mono (by exact_mod_cast hle)
  have hq0 : 0 ≤ roundToGrid (v : ℚ) / roundToGrid (total : ℚ) :=
    div_nonneg hv0 (by linarith)
  have hq1 : roundToGrid (v : ℚ) / roundToGrid (total : ℚ) ≤ 1 := by
    rw [div_le_one (by linarith)]
    exact hvt
  have hr0 := roundToGrid_nonneg hq0
  have hr1 := roundToGrid_mono hq1
  rw [roundToGrid_one] at hr1
  unfold percentQ
  constructor
  · exact roundToGrid_nonneg (by linarith)
  · have := roundToGrid_mono
      (show 100 * roundToGrid (roundToGrid (v : ℚ) / roundToGrid (total : ℚ)) ≤ 100 by linarith)
    rwa [roundToGrid_hundred] at this

theorem percentFloat_fitsInt_of_abs_le {total v : Int} (ht : isInt64 total) (hpos : 0 < total)
    (hv : |v| ≤ 2 ^ (56 : ℕ)) : (percentFloat total v).fitsInt := by
  have hv64 : isInt64 v := by
    unfold isInt64
    rw [abs_le] at hv
    constructor <;> omega
  have hvq : |(v : ℚ)| ≤ (2 : ℚ) ^ (56 : ℕ) := by exact_mod_cast hv
  have hb := percentQ_abs_le hpos 56 hvq
  rw [abs_le] at hb
  rw [percentFloat_eq ht hpos hv64]
  have h1 : (((-(100 * 2 ^ (56 : ℕ)) : ℤ) : ℤ) : ℚ) ≤ percentQ total v := by
    push_cast
    linarith [hb.1]
  have h2 : percentQ total v ≤ (((100 * 2 ^ (56 : ℕ) : ℤ) : ℤ) : ℚ) := by
    push_cast
    linarith [hb.2]
  have h3 := truncQ_mono h1
  have h4 := truncQ_mono h2
  rw [truncQ_intCast] at h3 h4
  show -(2 : ℤ) ^ (63 : ℕ) ≤ truncQ (percentQ total v) ∧
    truncQ (percentQ total v) < (2 : ℤ) ^ (63 : ℕ)
  constructor
  · have : -(2 : ℤ) ^ (63 : ℕ) ≤ -(100 * 2 ^ (56 : ℕ)) := by norm_num
    omega
  · have : (100 * 2 ^ (56 : ℕ) : ℤ) < (2 : ℤ) ^ (63 : ℕ) := by norm_num
    omega

theorem toInt_of_fits (conv : Float64 → Int) {q : ℚ} (h : (Float64.finite q).fitsInt) :
    Float64.toInt conv (.finite q) = truncQ q := by
  unfold Float64.toInt
  exact if_pos h

theorem update_percent (conv : Float64 → Int) (pb : ProgressBar) (v : Int) :
    (pb.Update conv v).1.percent = Float64.toInt conv (percentFloat pb.rawTotal v) := rfl

theorem update_rawTotal (conv : Float64 → Int) (pb : ProgressBar) (v : Int) :
    (pb.Update conv v).1.rawTotal = pb.rawTotal := rfl

theorem percentQ_one_one : percentQ 1 1 = 100 := by
  unfold percentQ
  norm_num [roundToGrid_one, roundToGrid_hundred]

theorem percentQ_one_two : percentQ 1 2 = 200 := by
  unfold percentQ
  have h2 : roundToGrid 2 = 2 := by simpa using roundToGrid_two_pow 1
  have h200 : roundToGrid 200 = 200 := by
    have := roundToGrid_hundred_two_pow 1
    norm_num at this
    exact this
  norm_num [roundToGrid_one, h2, h200]

theorem percentQ_one_big : percentQ 1 (2 ^ (62 : ℕ)) = 100 * (2 : ℚ) ^ (62 : ℕ) := by
  unfold percentQ
  have h1 : roundToGrid (((2 ^ (62 : ℕ) : ℤ) : ℤ) : ℚ) = (2 : ℚ) ^ (62 : ℕ) := by
    push_cast
    exact roundToGrid_two_pow 62
  rw [h1]
  simp only [Int.cast_one, roundToGrid_one, div_one]
  rw [roundToGrid_two_pow 62, roundToGrid_hundred_two_pow 62]

/-! ## Claims on the progress bar -/

theorem isInt64_one : isInt64 1 := by
  unfold isInt64
  norm_num

theorem update_one_one (conv : Float64 → Int) (pb : ProgressBar) (h : pb.rawTotal = 1) :
    (pb.Update conv 1).1.percent = 100 := by
  rw [update_percent, h, percentFloat_eq isInt64_one (by norm_num) isInt64_one, percentQ_one_one]
  have h100 : truncQ (100 : ℚ) = 100 := by
    have := truncQ_intCast 100
    simpa using this
  rw [toInt_of_fits conv (by show _ ∧ _; rw [h100]; norm_num), h100]

theorem update_one_two (conv : Float64 → Int) (pb : ProgressBar) (h : pb.rawTotal = 1) :
    (pb.Update conv 2).1.percent = 200 := by
  have h2 : isInt64 2 := by unfold isInt64; norm_num
  rw [update_percent, h, percentFloat_eq isInt64_one (by norm_num) h2, percentQ_one_two]
  have h200 : truncQ (200 : ℚ) = 200 := by
    have := truncQ_intCast 200
    simpa using this
  rw [toInt_of_fits conv (by show _ ∧ _; rw [h200]; norm_num), h200]

theorem update_one_big (conv : Float64 → Int) (pb : ProgressBar) (h : pb.rawTotal = 1) :
    (pb.Update conv (2 ^ (62 : ℕ))).1.percent =
      conv (.finite (100 * (2 : ℚ) ^ (62 : ℕ))) := by
  have h2 : isInt64 (2 ^ (62 : ℕ)) := by unfold isInt64; norm_num
  rw [update_percent, h, percentFloat_eq isInt64_one (by norm_num) h2, percentQ_one_big]
  have hbig : truncQ (100 * (2 : ℚ) ^ (62 : ℕ)) = 100 * 2 ^ (62 : ℕ) := by
    have hc : (100 * (2 : ℚ) ^ (62 : ℕ)) = (((100 * 2 ^ (62 : ℕ) : ℤ) : ℤ) : ℚ) := by
      norm_num
    rw [hc, truncQ_intCast]
  simp only [Float64.toInt]
  rw [hbig]
  exact if_neg (by norm_num)

theorem toInt_percentFloat_mono (conv : Float64 → Int) {total v₁ v₂ : Int}
    (ht : isInt64 total) (hpos : 0 < total) (h₁ : isInt64 v₁) (h₂ : isInt64 v₂) (hle : v₁ ≤ v₂)
    (hf₁ : (percentFloat total v₁).fitsInt) (hf₂ : (percentFloat total v₂).fitsInt) :
    Float64.toInt conv (percentFloat total v₁) ≤ Float64.toInt conv (percentFloat total v₂) := by
  rw [percentFloat_eq ht hpos h₁] at hf₁ ⊢
  rw [percentFloat_eq ht hpos h₂] at hf₂ ⊢
  rw [toInt_of_fits conv hf₁, toInt_of_fits conv hf₂]
  exact truncQ_mono (percentQ_mono hpos hle)

/-- C7 fails as stated: on a bar of total 1, with the amd64 conversion, `Update(1)`
stores 100 and `Update(2^62)` stores `-2^63`, because `100.0 * 2^62` does not fit
the 64-bit `int`. -/
theorem update_not_monotone_amd64 :
    (1 : Int) ≤ 2 ^ (62 : ℕ) ∧
    ((NewProgressBar 1).Update convAMD64 1).1.percent = 100 ∧
    ((NewProgressBar 1).Update convAMD64 (2 ^ (62 : ℕ))).1.percent = -(2 : ℤ) ^ (63 : ℕ) ∧
    ¬ (((NewProgressBar 1).Update convAMD64 1).1.percent ≤
      ((NewProgressBar 1).Update convAMD64 (2 ^ (62 : ℕ))).1.percent) := by
  have h1 := update_one_one convAMD64 (NewProgressBar 1) rfl
  have h2 := update_one_big convAMD64 (NewProgressBar 1) rfl
  refine ⟨by norm_num, h1, h2, ?_⟩
  rw [h1, h2]
  norm_num [convAMD64]

/-- C7 as amended: on bars with the same positive total, for values `v₁ ≤ v₂`
whose float percentage `100.0*(v/total)` fits the 64-bit `int`, the percent
stored by `Update(v₁)` is at most the percent stored by `Update(v₂)`, whatever
the implementation does on conversions that do not fit. -/
theorem update_percent_monotone (conv : Float64 → Int) (pb pb' : ProgressBar) (v₁ v₂ : Int)
    (ht : isInt64 pb.rawTotal) (hpos : 0 < pb.rawTotal) (hsame : pb'.rawTotal = pb.rawTotal)
    (h₁ : isInt64 v₁) (h₂ : isInt64 v₂) (hle : v₁ ≤ v₂)
    (hf₁ : (percentFloat pb.rawTotal v₁).fitsInt)
    (hf₂ : (percentFloat pb.rawTotal v₂).fitsInt) :
    (pb.Update conv v₁).1.percent ≤ (pb'.Update conv v₂).1.percent := by
  rw [update_percent, update_percent, hsame]
  exact toInt_percentFloat_mono conv ht hpos h₁ h₂ hle hf₁ hf₂

/-- Witness of the amended C7: a bar of total 3 updated with 1 and then with 2. -/
theorem update_percent_monotone_witness :
    isInt64 (NewProgressBar 3).rawTotal ∧ (1 : Int) ≤ 2 ∧
    ((NewProgressBar 3).Update convAMD64 1).1.percent ≤
      (((NewProgressBar 3).Update convAMD64 1).1.Update convAMD64 2).1.percent :=
  ⟨by decide, by decide,
    update_percent_monotone convAMD64 (NewProgressBar 3)
      ((NewProgressBar 3).Update convAMD64 1).1 1 2 (by decide) (by decide) rfl
      (by decide) (by decide) (by decide)
      (percentFloat_fitsInt_of_abs_le (by decide) (by decide) (by decide))
      (percentFloat_fitsInt_of_abs_le (by decide) (by decide) (by decide))⟩

theorem percentsAfter_eq_map (conv : Float64 → Int) :
    ∀ (vs : List Int) (pb : ProgressBar), percentsAfter conv pb vs =
      vs.map (fun v => Float64.toInt conv (percentFloat pb.rawTotal v)) := by
  intro vs
  induction vs with
  | nil => intro pb; rfl
  | cons v vs ih =>
    intro pb
    simp [percentsAfter, ih, update_percent, update_rawTotal]

/-- Along a non-decreasing sequence of values whose percentages fit the `int`,
the percents stored by successive `Update` calls never decrease. -/
theorem percentsAfter_sorted (conv : Float64 → Int) (pb : ProgressBar) (vs : List Int)
    (ht : isInt64 pb.rawTotal) (hpos : 0 < pb.rawTotal)
    (hvs : ∀ v ∈ vs, isInt64 v ∧ (percentFloat pb.rawTotal v).fitsInt)
    (hsorted : vs.Pairwise (fun a b => a ≤ b)) :
    (percentsAfter conv pb vs).Pairwise (fun a b => a ≤ b) := by
  rw [percentsAfter_eq_map, List.pairwise_map]
  refine List.Pairwise.imp_of_mem ?_ hsorted
  intro a b ha hb hab
  exact toInt_percentFloat_mono conv ht hpos (hvs a ha).1 (hvs b hb).1 hab
    (hvs a ha).2 (hvs b hb).2

theorem Float64.ofInt_zero : Float64.ofInt 0 = .finite 0 := by
  unfold Float64.ofInt Float64.ofRat
  simp only [Int.cast_zero, roundToGrid_zero]
  norm_num

theorem Float64.ofInt_pos {v : Int} (hv : 0 < v) :
    Float64.ofInt v = .posInf ∨ ∃ a : ℚ, 0 < a ∧ Float64.ofInt v = .finite a := by
  have h1 : (1 : ℚ) ≤ (v : ℚ) := by exact_mod_cast hv
  have h2 := roundToGrid_mono h1
  rw [roundToGrid_one] at h2
  unfold Float64.ofInt Float64.ofRat
  split_ifs with ha hb
  · exact Or.inl rfl
  · exfalso
    have : (0 : ℚ) < (2 : ℚ) ^ (1024 : ℕ) := by positivity
    linarith
  · exact Or.inr ⟨_, by linarith, rfl⟩

theorem Float64.ofInt_neg {v : Int} (hv : v < 0) :
    Float64.ofInt v = .negInf ∨ ∃ a : ℚ, a < 0 ∧ Float64.ofInt v = .finite a := by
  have h1 : (v : ℚ) ≤ -1 := by
    have : v ≤ -1 := by omega
    exact_mod_cast this
  have h2 := roundToGrid_mono h1
  rw [roundToGrid_neg, roundToGrid_one] at h2
  unfold Float64.ofInt Float64.ofRat
  split_ifs with ha hb
  · exfalso
    have : (0 : ℚ) < (2 : ℚ) ^ (1024 : ℕ) := by positivity
    linarith
  · exact Or.inl rfl
  · exact Or.inr ⟨_, by linarith, rfl⟩

/-- With a zero total the float value of line 49 is not a number when the value
is zero, and an infinity of the sign of the value otherwise. -/
theorem percentFloat_zero_total (v : Int) :
    percentFloat 0 v = if v = 0 then .nan else if 0 < v then .posInf else .negInf := by
  unfold percentFloat
  rw [Float64.ofInt_zero]
  rcases lt_trichotomy v 0 with hneg | hzero | hpos
  · rw [if_neg (by omega), if_neg (by omega)]
    rcases Float64.ofInt_neg hneg with h | ⟨a, ha, h⟩
    · rw [h]
      simp [Float64.div, Float64.mul]
    · rw [h]
      have hne : a ≠ 0 := by linarith
      have hnp : ¬ (0 < a) := by linarith
      simp [Float64.div, Float64.mul, hne, hnp]
  · subst hzero
    rw [Float64.ofInt_zero]
    simp [Float64.div, Float64.mul]
  · rw [if_neg (by omega), if_pos hpos]
    rcases Float64.ofInt_pos hpos with h | ⟨a, ha, h⟩
    · rw [h]
      simp [Float64.div, Float64.mul]
    · rw [h]
      have hne : a ≠ 0 := by linarith
      simp [Float64.div, Float64.mul, hne, ha]

theorem update_zero_total (conv : Float64 → Int) (v : Int) :
    ((NewProgressBar 0).Update conv v).1.percent =
      conv (if v = 0 then .nan else if 0 < v then .posInf else .negInf) := by
  rw [update_percent]
  show Float64.toInt conv (percentFloat 0 v) = _
  rw [percentFloat_zero_total]
  split_ifs <;> rfl

/-- C8 fails as stated: on a bar of total 0, with the amd64 conversion,
`Update(5)` stores `-2^63`, not 100. -/
theorem update_zero_total_not_complete :
    ((NewProgressBar 0).Update convAMD64 5).1.percent = -(2 : ℤ) ^ (63 : ℕ) ∧
    ((NewProgressBar 0).Update convAMD64 5).1.percent ≠ 100 := by
  have h := update_zero_total convAMD64 5
  refine ⟨by rw [h]; rfl, ?_⟩
  rw [h]
  norm_num [convAMD64]

/-- C8 as amended: on a bar made by `NewProgressBar(0)` every `Update` returns
(the division is a float division, nothing panics); the percent it stores is the
implementation-dependent conversion of a non-finite float, not-a-number for the
value 0 and an infinity of the sign of the value otherwise, whatever the value;
the bar reads 100 only after `Done`. -/
theorem update_zero_total_percent (conv : Float64 → Int) (v : Int) :
    ∃ pb hasChanged, (NewProgressBar 0).Update conv v = (pb, hasChanged) ∧
      pb.rawTotal = 0 ∧ pb.rawCurrent = v ∧
      pb.percent = conv (if v = 0 then .nan else if 0 < v then .posInf else .negInf) ∧
      pb.Done.percent = 100 ∧ (NewProgressBar 0).Done.percent = 100 :=
  ⟨_, _, rfl, rfl, rfl, update_zero_total conv v, rfl, rfl⟩

theorem wrapInt64_of_small {x : Int} (h0 : 0 ≤ x) (h1 : x ≤ 4000) : wrapInt64 x = x := by
  unfold wrapInt64
  omega

theorem string_ok_of_percent_range (pb : ProgressBar) (h0 : 0 ≤ pb.percent)
    (h1 : pb.percent ≤ 100) :
    0 ≤ pb.doneCount ∧ pb.doneCount ≤ 40 ∧ 0 ≤ pb.todoCount ∧ ∃ s, pb.String = .ok s := by
  have hd : pb.doneCount = pb.percent * 40 / 100 := by
    unfold ProgressBar.doneCount
    rw [wrapInt64_of_small (by omega) (by omega)]
    exact Int.tdiv_eq_ediv (by omega) (by norm_num)
  have hd0 : 0 ≤ pb.doneCount := by rw [hd]; omega
  have hd1 : pb.doneCount ≤ 40 := by rw [hd]; omega
  have ht : pb.todoCount = 40 - pb.doneCount := by
    unfold ProgressBar.todoCount
    exact wrapInt64_of_small (by omega) (by omega)
  have ht0 : 0 ≤ pb.todoCount := by rw [ht]; omega
  refine ⟨hd0, hd1, ht0, ?_⟩
  unfold ProgressBar.String
  rw [if_neg (by omega)]
  exact ⟨_, rfl⟩

theorem update_in_range (conv : Float64 → Int) (pb : ProgressBar) (v : Int)
    (ht : isInt64 pb.rawTotal) (hpos : 0 < pb.rawTotal) (h0 : 0 ≤ v) (hle : v ≤ pb.rawTotal) :
    0 ≤ (pb.Update conv v).1.percent ∧ (pb.Update conv v).1.percent ≤ 100 := by
  have hv : isInt64 v := by
    unfold isInt64 at ht ⊢
    constructor
    · have : -(2 : ℤ) ^ (63 : ℕ) ≤ 0 := by norm_num
      omega
    · omega
  have hr := percentQ_range hpos h0 hle
  have h1 : truncQ (((0 : ℤ) : ℤ) : ℚ) ≤ truncQ (percentQ pb.rawTotal v) :=
    truncQ_mono (by push_cast; exact hr.1)
  have h2 : truncQ (percentQ pb.rawTotal v) ≤ truncQ (((100 : ℤ) : ℤ) : ℚ) :=
    truncQ_mono (by push_cast; exact hr.2)
  rw [truncQ_intCast] at h1 h2
  have hfit : (Float64.finite (percentQ pb.rawTotal v)).fitsInt := by
    show _ ∧ _
    constructor
    · have : -(2 : ℤ) ^ (63 : ℕ) ≤ 0 := by norm_num
      omega
    · have : (100 : ℤ) < (2 : ℤ) ^ (63 : ℕ) := by norm_num
      omega
  have hp : (pb.Update conv v).1.percent = truncQ (percentQ pb.rawTotal v) := by
    rw [update_percent, percentFloat_eq ht hpos hv, toInt_of_fits conv hfit]
  exact ⟨by rw [hp]; exact h1, by rw [hp]; exact h2⟩

theorem roundToGrid_intCast_small (n : ℤ) (hn : |n| < 2 ^ (53 : ℕ)) :
    roundToGrid (n : ℚ) = (n : ℚ) := by
  have := roundToGrid_fix n 0 hn (by norm_num)
  simpa using this

theorem percentQ_twice_total {total : Int} (hpos : 0 < total) (hlt : total < 2 ^ (52 : ℕ)) :
    percentQ total (2 * total) = 200 := by
  have h1 : roundToGrid (total : ℚ) = (total : ℚ) :=
    roundToGrid_intCast_small total (by rw [abs_lt]; constructor <;> omega)
  have h2 : roundToGrid ((2 * total : ℤ) : ℚ) = ((2 * total : ℤ) : ℚ) :=
    roundToGrid_intCast_small (2 * total) (by rw [abs_lt]; constructor <;> omega)
  have hne : (total : ℚ) ≠ 0 := by
    have : (0 : ℚ) < (total : ℚ) := by exact_mod_cast hpos
    exact this.ne'
  have hq : ((2 * total : ℤ) : ℚ) / (total : ℚ) = 2 := by
    push_cast
    field_simp
  have h200 : roundToGrid 200 = 200 := by
    have := roundToGrid_hundred_two_pow 1
    norm_num at this
    exact this
  have htwo : roundToGrid 2 = 2 := by simpa using roundToGrid_two_pow 1
  unfold percentQ
  rw [h2, h1, hq, htwo]
  norm_num [h200]

theorem string_panics_of_two_hundred (pb : ProgressBar) (h : pb.percent = 200) :
    pb.doneCount = 80 ∧ pb.todoCount = -40 ∧ pb.String = .error .negativeRepeat := by
  have hd : pb.doneCount = 80 := by
    unfold ProgressBar.doneCount
    rw [h]
    decide
  have ht : pb.todoCount = -40 := by
    unfold ProgressBar.todoCount
    rw [hd]
    decide
  refine ⟨hd, ht, ?_⟩
  unfold ProgressBar.String
  rw [ht]
  exact if_pos (Or.inr (by decide))

/-- Whatever the total below `2^52`, a value of twice the total stores the
percent 200, on which `String` panics in `strings.Repeat`; the statement
`if pb.Update(v) { ... pb.String() }` of `saveImage` therefore panics once the
exported bytes reach twice the inspected size, unless the bar already stood at
200 (then `Update` reports no change and `String` is not called). -/
theorem update_twice_total (conv : Float64 → Int) (pb : ProgressBar)
    (hpos : 0 < pb.rawTotal) (hlt : pb.rawTotal < 2 ^ (52 : ℕ)) :
    (pb.Update conv (2 * pb.rawTotal)).1.percent = 200 ∧
    (pb.Update conv (2 * pb.rawTotal)).1.String = .error .negativeRepeat ∧
    (pb.percent ≠ 200 → updateAndReport conv pb (2 * pb.rawTotal) = .error .negativeRepeat) := by
  have ht : isInt64 pb.rawTotal := by
    unfold isInt64
    constructor
    · have : -(2 : ℤ) ^ (63 : ℕ) ≤ 0 := by norm_num
      omega
    · have : (2 : ℤ) ^ (52 : ℕ) < (2 : ℤ) ^ (63 : ℕ) := by norm_num
      omega
  have hv : isInt64 (2 * pb.rawTotal) := by
    unfold isInt64
    constructor
    · have : -(2 : ℤ) ^ (63 : ℕ) ≤ 0 := by norm_num
      omega
    · have : 2 * (2 : ℤ) ^ (52 : ℕ) < (2 : ℤ) ^ (63 : ℕ) := by norm_num
      omega
  have h200 : truncQ (200 : ℚ) = 200 := by
    have := truncQ_intCast 200
    simpa using this
  have hp : (pb.Update conv (2 * pb.rawTotal)).1.percent = 200 := by
    rw [update_percent, percentFloat_eq ht hpos hv, percentQ_twice_total hpos hlt,
      toInt_of_fits conv (by show _ ∧ _; rw [h200]; norm_num), h200]
  obtain ⟨_, _, hs⟩ := string_panics_of_two_hundred _ hp
  refine ⟨hp, hs, ?_⟩
  · intro hc
    have hchanged : (pb.Update conv (2 * pb.rawTotal)).2 = true := by
      show decide ((Float64.toInt conv (percentFloat pb.rawTotal (2 * pb.rawTotal))) ≠
        pb.percent) = true
      rw [← update_percent, hp]
      exact decide_eq_true (fun h => hc h.symm)
    unfold updateAndReport
    rw [if_pos hchanged, hs]

/-- C9, evaluated where it fails: on a bar of total 1, `Update(2)` stores the
percent 200, `String` computes 80 `=` and `-40` blanks and panics in
`strings.Repeat`; the same happens on a bar of total 1000 at the value 2000, as
in `saveImage` when 2000 bytes have been exported of an image inspected at
1000 bytes. -/
theorem update_percent_exceeds_hundred :
    ((NewProgressBar 1).Update convAMD64 2).1.percent = 200 ∧
    ((NewProgressBar 1).Update convAMD64 2).1.doneCount = 80 ∧
    ((NewProgressBar 1).Update convAMD64 2).1.todoCount = -40 ∧
    ((NewProgressBar 1).Update convAMD64 2).1.String = .error .negativeRepeat ∧
    ((NewProgressBar 1000).Update convAMD64 2000).1.percent = 200 ∧
    updateAndReport convAMD64 (NewProgressBar 1000) 2000 = .error .negativeRepeat := by
  have h := update_one_two convAMD64 (NewProgressBar 1) rfl
  obtain ⟨hd, ht, hs⟩ := string_panics_of_two_hundred _ h
  obtain ⟨hp, _, hr⟩ :=
    update_twice_total convAMD64 (NewProgressBar 1000) (by decide) (by decide)
  exact ⟨h, hd, ht, hs, hp, hr (by decide)⟩

/-- Within `0 ≤ value ≤ total`, for a positive total, `Update` stores a percent
in `0..100`, whatever the implementation does on conversions that do not fit;
`String` then computes between 0 and 40 `=`, a non-negative number of blanks,
and returns. -/
theorem update_percent_range (conv : Float64 → Int) (pb : ProgressBar) (v : Int)
    (ht : isInt64 pb.rawTotal) (hpos : 0 < pb.rawTotal) (h0 : 0 ≤ v) (hle : v ≤ pb.rawTotal) :
    0 ≤ (pb.Update conv v).1.percent ∧ (pb.Update conv v).1.percent ≤ 100 ∧
    0 ≤ (pb.Update conv v).1.doneCount ∧ (pb.Update conv v).1.doneCount ≤ 40 ∧
    0 ≤ (pb.Update conv v).1.todoCount ∧ ∃ s, (pb.Update conv v).1.String = .ok s := by
  obtain ⟨hp0, hp1⟩ := update_in_range conv pb v ht hpos h0 hle
  obtain ⟨a, b, c, d⟩ := string_ok_of_percent_range _ hp0 hp1
  exact ⟨hp0, hp1, a, b, c, d⟩

theorem updateAndReport_ok (conv : Float64 → Int) (pb : ProgressBar) (v : Int)
    (ht : isInt64 pb.rawTotal) (hpos : 0 < pb.rawTotal) (h0 : 0 ≤ v) (hle : v ≤ pb.rawTotal) :
    updateAndReport conv pb v = .ok (pb.Update conv v).1 := by
  obtain ⟨hp0, hp1⟩ := update_in_range conv pb v ht hpos h0 hle
  obtain ⟨_, _, _, s, hs⟩ := string_ok_of_percent_range _ hp0 hp1
  unfold updateAndReport
  split_ifs
  · rw [hs]
  · rfl

theorem processLayerLoop_ok (conv : Float64 → Int) :
    ∀ (rest : List FileInfo) (pb : ProgressBar) (tree : FileTree) (idx : Nat),
      isInt64 pb.rawTotal → ((idx + rest.length : Nat) : Int) = pb.rawTotal →
      ∃ r, processLayerLoop conv pb tree idx rest = .ok r := by
  intro rest
  induction rest with
  | nil => intro pb tree idx _ _; exact ⟨_, rfl⟩
  | cons element rest ih =>
    intro pb tree idx ht hlen
    have hpos : 0 < pb.rawTotal := by
      rw [← hlen]
      simp only [List.length_cons]
      omega
    have hle : (idx : Int) ≤ pb.rawTotal := by
      rw [← hlen]
      omega
    have hstep := updateAndReport_ok conv pb (idx : Int) ht hpos (by omega) hle
    have ht' : isInt64 (pb.Update conv (idx : Int)).1.rawTotal := by
      rw [update_rawTotal]; exact ht
    have hlen' : ((idx + 1 + rest.length : Nat) : Int) = (pb.Update conv (idx : Int)).1.rawTotal := by
      rw [update_rawTotal, ← hlen]
      simp only [List.length_cons]
      omega
    rw [processLayerLoop, hstep]
    exact ih _ _ _ ht' hlen'

theorem processLayerTar_ok (dec : Decoders) (conv : Float64 → Int) (e : TarEntry)
    (h : processable dec e = true) :
    ∃ tree, processLayerTar dec conv e.Name e.Content = .ok tree := by
  obtain ⟨hname, headers, hdec, hlen⟩ : 15 ≤ e.Name.utf8ByteSize ∧
      ∃ headers, dec.untar e.Content = some headers ∧ isInt64 (headers.length : Int) := by
    unfold processable at h
    rw [Bool.and_eq_true] at h
    refine ⟨of_decide_eq_true h.1, ?_⟩
    cases hu : dec.untar e.Content with
    | none => rw [hu] at h; exact absurd h.2 (by simp)
    | some headers =>
      rw [hu] at h
      exact ⟨headers, rfl, of_decide_eq_true h.2⟩
  obtain ⟨fileInfos, hfi⟩ : ∃ fileInfos : List FileInfo, fileInfos =
      (headers.filter (fun h => h.Typeflag = .other)).map
        (fun h => { Path := h.Name, Size := h.Size }) := ⟨_, rfl⟩
  have hfl : getFileList dec e.Content = .ok fileInfos := by
    simp [getFileList, hdec, hfi]
  have hcount : isInt64 (NewProgressBar (fileInfos.length : Int)).rawTotal := by
    have h1 : (headers.filter (fun h => h.Typeflag = .other)).length ≤ headers.length :=
      List.length_filter_le _ _
    have h2 : fileInfos.length ≤ headers.length := by
      rw [hfi, List.length_map]
      exact h1
    show isInt64 (fileInfos.length : Int)
    unfold isInt64 at hlen ⊢
    constructor
    · have : -(2 : ℤ) ^ (63 : ℕ) ≤ 0 := by norm_num
      omega
    · omega
  obtain ⟨⟨pb, tree⟩, hloop⟩ := processLayerLoop_ok conv fileInfos
    (NewProgressBar (fileInfos.length : Int))
    { Name := e.Name, FileSize := 0, Paths := [] } 0 hcount (by simp [NewProgressBar])
  obtain ⟨_, _, _, s, hs⟩ := string_ok_of_percent_range pb.Done
    (by show (0 : Int) ≤ 100; norm_num) (by show (100 : Int) ≤ 100; norm_num)
  refine ⟨tree, ?_⟩
  unfold processLayerTar
  rw [hfl]
  simp only []
  rw [if_neg (by omega), hloop]
  simp only []
  rw [hs]

theorem walkArchive_keeps_manifest (dec : Decoders) (conv : Float64 → Int) (race : Nat → Bool) :
    ∀ (archive : List TarEntry) (manifest : ImageManifest) (layerMap : String → Option FileTree)
      (dispatched : Nat),
      (∀ e ∈ archive, e.Name ≠ "manifest.json") →
      ∀ r, walkArchive dec conv race archive manifest layerMap dispatched = .ok r →
        r.1 = manifest := by
  intro archive
  induction archive with
  | nil =>
    intro manifest layerMap dispatched _ r hr
    simp only [walkArchive, Except.ok.injEq] at hr
    rw [← hr]
  | cons e es ih =>
    intro manifest layerMap dispatched hno r hr
    have hne : e.Name ≠ "manifest.json" := hno e (List.mem_cons_self _ _)
    have hrest : ∀ e' ∈ es, e'.Name ≠ "manifest.json" :=
      fun e' he' => hno e' (List.mem_cons_of_mem _ he')
    unfold walkArchive at hr
    split at hr
    · exact ih manifest layerMap dispatched hrest r hr
    · by_cases hs : hasSuffix e.Name "layer.tar" = true
      · rw [if_pos hs] at hr
        by_cases hn : e.Name.utf8ByteSize < 15
        · rw [if_pos hn] at hr
          exact absurd hr (by simp)
        · rw [if_neg hn] at hr
          split at hr
          · exact absurd hr (by simp)
          · by_cases hrace : 0 < dispatched ∧ race dispatched = true
            · rw [if_pos hrace] at hr
              exact absurd hr (by simp)
            · rw [if_neg hrace] at hr
              exact ih manifest _ _ hrest r hr
      · rw [if_neg hs, if_neg hne] at hr
        exact ih manifest layerMap dispatched hrest r hr
    · exact ih manifest layerMap dispatched hrest r hr

theorem layerTaskCount_cons_layer (e : TarEntry) (es : List TarEntry)
    (hreg : e.Typeflag = .reg) (hs : hasSuffix e.Name "layer.tar" = true) :
    layerTaskCount (e :: es) = layerTaskCount es + 1 := by
  simp [layerTaskCount, hreg, hs]

theorem layerTaskCount_cons_le (e : TarEntry) (es : List TarEntry) :
    layerTaskCount es ≤ layerTaskCount (e :: es) := by
  unfold layerTaskCount
  rw [List.filter_cons]
  split_ifs
  · simp
  · exact le_refl _

theorem walkArchive_ok (dec : Decoders) (conv : Float64 → Int) (race : Nat → Bool) :
    ∀ (archive : List TarEntry) (manifest : ImageManifest) (layerMap : String → Option FileTree)
      (dispatched : Nat),
      (∀ e ∈ archive, e.Name ≠ "manifest.json") →
      (∀ e ∈ archive, e.Typeflag = .reg → hasSuffix e.Name "layer.tar" = true →
        processable dec e = true) →
      (∀ k, 1 ≤ k → dispatched ≤ k → k < dispatched + layerTaskCount archive →
        race k = false) →
      ∃ layerMap', walkArchive dec conv race archive manifest layerMap dispatched =
        .ok (manifest, layerMap') := by
  intro archive
  induction archive with
  | nil => intro manifest layerMap dispatched _ _ _; exact ⟨layerMap, rfl⟩
  | cons e es ih =>
    intro manifest layerMap dispatched hno hproc hrace
    have hne : e.Name ≠ "manifest.json" := hno e (List.mem_cons_self _ _)
    have hrest : ∀ e' ∈ es, e'.Name ≠ "manifest.json" :=
      fun e' he' => hno e' (List.mem_cons_of_mem _ he')
    have hprest : ∀ e' ∈ es, e'.Typeflag = .reg → hasSuffix e'.Name "layer.tar" = true →
        processable dec e' = true :=
      fun e' he' => hproc e' (List.mem_cons_of_mem _ he')
    have hrrest : ∀ k, 1 ≤ k → dispatched ≤ k → k < dispatched + layerTaskCount es →
        race k = false := by
      intro k h1 h2 h3
      have := layerTaskCount_cons_le e es
      exact hrace k h1 h2 (by omega)
    unfold walkArchive
    split
    · exact ih manifest layerMap dispatched hrest hprest hrrest
    · rename_i hreg
      by_cases hs : hasSuffix e.Name "layer.tar" = true
      · have hp := hproc e (List.mem_cons_self _ _) hreg hs
        obtain ⟨tree, htree⟩ := processLayerTar_ok dec conv e hp
        have hname : 15 ≤ e.Name.utf8ByteSize := by
          unfold processable at hp
          rw [Bool.and_eq_true] at hp
          exact of_decide_eq_true hp.1
        have hcount := layerTaskCount_cons_layer e es hreg hs
        have hquiet : ¬ (0 < dispatched ∧ race dispatched = true) := by
          rintro ⟨hpos, hr⟩
          have := hrace dispatched (by omega) (le_refl _) (by omega)
          rw [this] at hr
          exact absurd hr (by simp)
        rw [if_pos hs, if_neg (by omega), htree]
        simp only []
        rw [if_neg hquiet]
        exact ih manifest _ (dispatched + 1) hrest hprest
          (fun k h1 h2 h3 => hrace k h1 (by omega) (by omega))
      · rw [if_neg hs, if_neg hne]
        exact ih manifest layerMap dispatched hrest hprest hrrest
    · exact ih manifest layerMap dispatched hrest hprest hrrest

theorem getImageConfigLoop_no_match (dec : Decoders) (manifest : ImageManifest) :
    ∀ (archive : List TarEntry) (config : ImageConfig),
      (∀ e ∈ archive, e.Name ≠ manifest.ConfigPath) →
      getImageConfigLoop dec manifest archive config = .ok config := by
  intro archive
  induction archive with
  | nil => intro config _; rfl
  | cons e es ih =>
    intro config hno
    unfold getImageConfigLoop
    rw [if_neg (hno e (List.mem_cons_self _ _))]
    exact ih config (fun e' he' => hno e' (List.mem_cons_of_mem _ he'))

theorem reconcileLoop_no_trees (paths : List String) :
    ∀ (hs : List ImageHistoryEntry) (idx : Nat) (layerIdx : Int) (layers out : List (Option Layer)),
      reconcileLoop paths [] idx hs layerIdx layers = .ok out → out = layers := by
  intro hs
  induction hs with
  | nil =>
    intro idx layerIdx layers out h
    simp only [reconcileLoop, Except.ok.injEq] at h
    exact h.symm
  | cons h hs ih =>
    intro idx layerIdx layers out hout
    by_cases he : h.EmptyLayer = true
    · rw [reconcileLoop, if_pos he] at hout
      exact ih _ _ _ _ hout
    · have hidx : indexAt ([] : List (Option FileTree))
          ((([] : List (Option FileTree)).length : Int) - 1 - layerIdx) =
          .error .indexOutOfRange := by
        unfold indexAt
        split_ifs <;> simp
      rw [reconcileLoop, if_neg he, hidx] at hout
      exact absurd hout (by simp)

theorem reconcile_no_paths (manifest : ImageManifest) (layerMap : String → Option FileTree)
    (config : ImageConfig) (hp : manifest.LayerTarPaths = [])
    (r : List (Option Layer) × List (Option FileTree))
    (h : reconcile manifest layerMap config = .ok r) : r = ([], []) := by
  unfold reconcile at h
  rw [hp] at h
  simp only [buildTrees, List.map_nil, List.length_nil, List.replicate_zero] at h
  split at h
  · exact absurd h (by simp)
  · rename_i out hout
    have := reconcileLoop_no_trees _ _ _ _ _ _ hout
    simp only [Except.ok.injEq] at h
    rw [← h, this]

/-! ## Claim on the missing manifest -/

/-- C6 fails as stated: an archive holding a directory and a file `repositories`
has no entry named `manifest.json`, yet `InitializeData` returns normally, with
an empty layer slice and an empty tree slice (no layer task is started, so the
scheduling plays no part). -/
theorem initializeData_no_manifest_returns :
    (∀ e ∈ Test.plainArchive, e.Name ≠ "manifest.json") ∧
    InitializeData Test.rejectAll convAMD64 (fun _ => true) Test.plainArchive = .ok ([], []) :=
  ⟨by decide, rfl⟩

/-- C6 as amended: for every archive with no entry named `manifest.json` and
every scheduling of the layer tasks, `InitializeData` reports no archive-format
error: whenever it returns, it returns the empty layer slice and the empty tree
slice as its value; and it does return so when no entry has the empty name,
every regular entry whose name ends in `layer.tar` can be processed, and no
store of a layer task overlaps another one, which holds for every scheduling
when the archive has at most one layer entry. -/
theorem initializeData_no_manifest (dec : Decoders) (conv : Float64 → Int) (race : Nat → Bool)
    (archive : List TarEntry) (hno : ∀ e ∈ archive, e.Name ≠ "manifest.json") :
    (∀ r, InitializeData dec conv race archive = .ok r → r = ([], [])) ∧
    ((∀ e ∈ archive, e.Name ≠ "") →
      (∀ e ∈ archive, e.Typeflag = .reg → hasSuffix e.Name "layer.tar" = true →
        processable dec e = true) →
      (layerTaskCount archive ≤ 1 ∨ ∀ k, 1 ≤ k → k < layerTaskCount archive → race k = false) →
      InitializeData dec conv race archive = .ok ([], [])) := by
  constructor
  · intro r hr
    unfold InitializeData at hr
    split at hr
    · exact absurd hr (by simp)
    · rename_i manifest layerMap hwalk
      have hm : manifest = zeroManifest :=
        walkArchive_keeps_manifest dec conv race archive zeroManifest _ 0 hno _ hwalk
      split at hr
      · exact absurd hr (by simp)
      · exact reconcile_no_paths manifest layerMap _ (by rw [hm]; rfl) r hr
  · intro hname hproc hquiet
    have hq : ∀ k, 1 ≤ k → 0 ≤ k → k < 0 + layerTaskCount archive → race k = false := by
      intro k h1 _ h3
      rcases hquiet with hone | hall
      · omega
      · exact hall k h1 (by omega)
    obtain ⟨layerMap, hwalk⟩ := walkArchive_ok dec conv race archive zeroManifest
      (fun _ => none) 0 hno hproc hq
    have hcfg : GetImageConfig dec archive zeroManifest = .ok zeroConfig :=
      getImageConfigLoop_no_match dec zeroManifest archive zeroConfig hname
    unfold InitializeData
    rw [hwalk]
    simp only []
    rw [hcfg]
    rfl

theorem noManifestArchive_processable :
    ∀ e ∈ Test.noManifestArchive, e.Typeflag = .reg →
      hasSuffix e.Name "layer.tar" = true → processable Test.oneFile e = true := by
  decide

/-- Witness of the amended C6: an archive with a directory, one layer and a file
`repositories`, the layer holding one file; under the scheduling in which every
store that can overlap does, the walk processes the one layer and the pipeline
returns the two empty slices. -/
theorem initializeData_no_manifest_witness :
    (∀ e ∈ Test.noManifestArchive, e.Name ≠ "manifest.json") ∧
    (∀ r, InitializeData Test.oneFile convAMD64 (fun _ => true) Test.noManifestArchive = .ok r →
      r = ([], [])) ∧
    InitializeData Test.oneFile convAMD64 (fun _ => true) Test.noManifestArchive = .ok ([], []) :=
  ⟨by decide,
    (initializeData_no_manifest Test.oneFile convAMD64 (fun _ => true) Test.noManifestArchive
      (by decide)).1,
    (initializeData_no_manifest Test.oneFile convAMD64 (fun _ => true) Test.noManifestArchive
      (by decide)).2 (by decide) noManifestArchive_processable (Or.inl (by decide))⟩

/-- With two layer entries the outcome depends on the scheduling: when the store
of the second task overlaps the store of the first, the process ends with
`concurrent map writes`; when it does not, the pipeline returns the two empty
slices. -/
theorem initializeData_two_layers_race :
    InitializeData Test.oneFile convAMD64 (fun _ => true) Test.twoLayerArchive =
      .error .concurrentMapWrites ∧
    InitializeData Test.oneFile convAMD64 (fun _ => false) Test.twoLayerArchive =
      .ok ([], []) := by
  have hp : ∀ e ∈ Test.twoLayerArchive, e.Typeflag = .reg →
      hasSuffix e.Name "layer.tar" = true → processable Test.oneFile e = true := by decide
  obtain ⟨t1, h1⟩ := processLayerTar_ok Test.oneFile convAMD64
    { Typeflag := .reg, Name := "0123456789abcdef/layer.tar", Size := 3, Content := [1, 2, 3] }
    (by decide)
  obtain ⟨t2, h2⟩ := processLayerTar_ok Test.oneFile convAMD64
    { Typeflag := .reg, Name := "fedcba9876543210/layer.tar", Size := 3, Content := [4, 5, 6] }
    (by decide)
  constructor
  · have hs1 : hasSuffix "0123456789abcdef/layer.tar" "layer.tar" = true := by decide
    have hs2 : hasSuffix "fedcba9876543210/layer.tar" "layer.tar" = true := by decide
    have hn1 : ¬ ("0123456789abcdef/layer.tar".utf8ByteSize < 15) := by decide
    have hn2 : ¬ ("fedcba9876543210/layer.tar".utf8ByteSize < 15) := by decide
    simp only [InitializeData, Test.twoLayerArchive, walkArchive, hs1, hs2, hn1, hn2, h1, h2,
      if_true, if_false, lt_irrefl, false_and, zero_add, zero_lt_one, and_self]
  · exact (initializeData_no_manifest Test.oneFile convAMD64 (fun _ => false)
      Test.twoLayerArchive (by decide)).2 (by decide) hp (Or.inr (fun _ _ _ => rfl))

end Dive
